import Mathlib

/-! # Weighted round-robin scheduling class (`kernel/sched/wrr.c`)

A shallow embedding of the WRR scheduling class.  Memory is modelled field by
field: every C field that `wrr.c` reads or writes is a map from the address of
the object holding it to its value.  The intrusive circular list of
`<linux/list.h>` is kept at pointer level (`next`/`prev` maps), so that the
list operations do exactly the pointer writes of the C code, in the same order.

Conventions:

* a task pointer is a natural number, a CPU (hence its `struct rq`) is a natural
  number; the functions are embedded for non-null `rq` and `p`;
* a function that dereferences a pointer read from memory returns an `Option`:
  `none` when that pointer is poisoned or `NULL`;
* `spin_lock`/`spin_unlock` and the statistics hooks `account_group_exec_runtime`
  and `cpuacct_charge` have no effect on the fields modelled here and are left out;
* the constants `SCHED_WRR_*` and the declarations of `struct sched_wrr_entity`,
  `struct wrr_rq` and `struct rq` live in headers outside the sources: the constants
  are parameters (`Config`), and the counters carry no word width.
-/

namespace WRR

/-! ## Data model -/

/-- Constants of the class.  They are `#define`d in a header that is not part of
the sources at hand, so they are parameters of the embedding. -/
structure Config where
  SCHED_WRR_MIN_WEIGHT : Nat
  SCHED_WRR_MAX_WEIGHT : Nat
  SCHED_WRR_DEFAULT_WEIGHT : Nat
  SCHED_WRR_TIME_QUANTUM : Nat
  SCHED_WRR_TICK_FACTOR : Nat

/-- Address of a `struct sched_wrr_entity` (equivalently of its `run_list`):
either the sentinel `cpu_rq(cpu)->wrr.run_queue` or the entity `p->wrr` of task `p`. -/
inductive Node where
  | head (cpu : Nat)
  | task (p : Nat)
  deriving DecidableEq, Repr

/-- The scheduling classes a task's `sched_class` pointer may name.  `wrr.c` defines
`sched_wrr_class` and compares against `&wrr_sched_class`. -/
inductive sched_class_ptr where
  | wrr_sched_class
  | sched_wrr_class
  | fair_sched_class
  deriving DecidableEq, Repr

/-- The part of kernel memory that `wrr.c` touches.

* `next`, `prev`: the two fields of each `struct list_head`; `none` is a pointer
  that cannot be dereferenced: `LIST_POISON1` in a `next` field and `LIST_POISON2`
  in a `prev` field (the only poison `list_del` writes there; a poisoned value is
  never copied, since every use of it is a dereference).
* `ent_task`, `weight`, `time_slice`, `time_left`: fields of `struct sched_wrr_entity`.
* `wrr_nr_running`, `size`, `wrr_curr`, `total_weight`: fields of `struct wrr_rq`, per CPU.
* `nr_running`, `clock_task`, `curr`: fields of `struct rq`, per CPU.
* `task_cpu`, `sched_class`, `exec_start`, `sum_exec_runtime`, `exec_max`,
  `need_resched`: fields of `struct task_struct`, per task.

The counters are integers without a word width (their C types are declared outside
the sources); `time_left` is an integer so that the pre-decrement of `task_tick_wrr`
on zero yields a non-zero value, as it does on a machine word.  The execution clock
and `sum_exec_runtime` are `u64`, see `update_curr_wrr`. -/
@[ext]
structure State where
  next : Node → Option Node
  prev : Node → Option Node
  ent_task : Node → Option Nat
  weight : Node → Nat
  time_slice : Node → Nat
  time_left : Node → Int
  wrr_nr_running : Nat → Int
  size : Nat → Int
  wrr_curr : Nat → Option Node
  total_weight : Nat → Int
  nr_running : Nat → Int
  clock_task : Nat → Nat
  curr : Nat → Nat
  task_cpu : Nat → Nat
  sched_class : Nat → sched_class_ptr
  exec_start : Nat → Nat
  sum_exec_runtime : Nat → Nat
  exec_max : Nat → Nat
  need_resched : Nat → Bool

/-! ## `<linux/list.h>` -/

/-- Modelled from the spec: `INIT_LIST_HEAD` of `<linux/list.h>` (not among the
sources); it clears queue linkage by making the node point to itself. -/
def INIT_LIST_HEAD (s : State) (list : Node) : State :=
  { s with next := Function.update s.next list (some list),
           prev := Function.update s.prev list (some list) }

/-- Modelled from the spec: `list_empty` of `<linux/list.h>`; a node is unlinked
when its `next` points to itself. -/
def list_empty (s : State) (head : Node) : Bool :=
  decide (s.next head = some head)

/-- Modelled from the spec: `__list_add` of `<linux/list.h>`; the four pointer
writes `next->prev = new; new->next = next; new->prev = prev; prev->next = new`. -/
def __list_add (s : State) (new prev next : Node) : State :=
  { s with prev := Function.update (Function.update s.prev next (some new)) new (some prev),
           next := Function.update (Function.update s.next new (some next)) prev (some new) }

/-- Modelled from the spec: `list_add_tail` of `<linux/list.h>`, append at the
tail, that is between `head->prev` and `head`. -/
def list_add_tail (s : State) (new head : Node) : Option State :=
  (s.prev head).map fun prev => __list_add s new prev head

/-- Modelled from the spec: `__list_del` of `<linux/list.h>`; the two pointer
writes `next->prev = prev; prev->next = next`. -/
def __list_del (s : State) (prev next : Node) : State :=
  { s with prev := Function.update s.prev next (some prev),
           next := Function.update s.next prev (some next) }

/-- Modelled from the spec: `list_del` of `<linux/list.h>`; unlink the entry and
poison its own pointers, `next` with `LIST_POISON1` and `prev` with `LIST_POISON2`
(each is the `none` of its own field). -/
def list_del (s : State) (entry : Node) : Option State :=
  (s.prev entry).bind fun prev =>
  (s.next entry).map fun next =>
    let s1 := __list_del s prev next
    { s1 with next := Function.update s1.next entry none,
              prev := Function.update s1.prev entry none }

/-- Modelled from the spec: `list_move_tail` of `<linux/list.h>`; unlink the
entry and append it at the tail of `head`. -/
def list_move_tail (s : State) (list head : Node) : Option State :=
  (s.prev list).bind fun prev =>
  (s.next list).bind fun next =>
    list_add_tail (__list_del s prev next) list head

/-! ## `wrr.c` -/

/-- Function `valid_weight`: 1 when the weight lies in the closed range, else 0. -/
def valid_weight (cfg : Config) (weight : Nat) : Nat :=
  if weight ≥ cfg.SCHED_WRR_MIN_WEIGHT ∧ weight ≤ cfg.SCHED_WRR_MAX_WEIGHT then 1 else 0

/-- Function `init_wrr_rq` applied to `&cpu_rq(cpu)->wrr`. -/
def init_wrr_rq (s : State) (cpu : Nat) : State :=
  let wrr_entity := Node.head cpu
  let s1 := { s with wrr_nr_running := Function.update s.wrr_nr_running cpu 0,
                     size := Function.update s.size cpu 0,
                     wrr_curr := Function.update s.wrr_curr cpu none,
                     total_weight := Function.update s.total_weight cpu 0 }
  let s2 := INIT_LIST_HEAD s1 wrr_entity
  { s2 with ent_task := Function.update s2.ent_task wrr_entity none,
            weight := Function.update s2.weight wrr_entity 0,
            time_slice := Function.update s2.time_slice wrr_entity 0,
            time_left := Function.update s2.time_left wrr_entity 0 }

/-- Function `init_task_wrr` for a non-null task `p`. -/
def init_task_wrr (cfg : Config) (s : State) (p : Nat) : State :=
  let wrr_entity := Node.task p
  let s1 := { s with ent_task := Function.update s.ent_task wrr_entity (some p) }
  let s2 : State :=
    if s1.weight wrr_entity = cfg.SCHED_WRR_DEFAULT_WEIGHT ∨
        valid_weight cfg (s1.weight wrr_entity) = 0 then
      let time_slice := cfg.SCHED_WRR_DEFAULT_WEIGHT * cfg.SCHED_WRR_TIME_QUANTUM
      { s1 with weight := Function.update s1.weight wrr_entity cfg.SCHED_WRR_DEFAULT_WEIGHT,
                time_slice := Function.update s1.time_slice wrr_entity time_slice,
                time_left := Function.update s1.time_left wrr_entity
                  ((time_slice / cfg.SCHED_WRR_TICK_FACTOR : Nat) : Int) }
    else
      let time_slice := s1.weight wrr_entity * cfg.SCHED_WRR_TIME_QUANTUM
      { s1 with time_slice := Function.update s1.time_slice wrr_entity time_slice,
                time_left := Function.update s1.time_left wrr_entity
                  ((time_slice / cfg.SCHED_WRR_TICK_FACTOR : Nat) : Int) }
  INIT_LIST_HEAD s2 wrr_entity

/-- Function `enqueue_task_wrr(rq, p, flags)` with `rq = cpu_rq(rq)`; `flags` is unused.
The result is `none` when a poisoned pointer would be dereferenced. -/
def enqueue_task_wrr (cfg : Config) (s : State) (rq p : Nat) : Option State :=
  let wrr_entity := Node.head rq
  let s1 := init_task_wrr cfg s p
  let new_entity := Node.task p
  if list_empty s1 new_entity = false then some s1
  else
    (list_add_tail s1 new_entity wrr_entity).map fun s2 =>
      { s2 with wrr_nr_running := Function.update s2.wrr_nr_running rq (s2.wrr_nr_running rq + 1),
                size := Function.update s2.size rq (s2.size rq + 1),
                total_weight := Function.update s2.total_weight rq
                  (s2.total_weight rq + (s2.weight new_entity : Int)) }

/-- Function `update_curr_wrr(rq)`: `delta_exec` is a `u64`, read as `s64` for the clamp. -/
def update_curr_wrr (s : State) (rq : Nat) : State :=
  let curr := s.curr rq
  if s.sched_class curr ≠ sched_class_ptr.wrr_sched_class then s
  else
    let delta : Nat := (((s.clock_task rq : Int) - (s.exec_start curr : Int)) % (2 ^ 64 : Int)).toNat
    let delta_exec : Nat := if 2 ^ 63 ≤ delta then 0 else delta
    { s with exec_max := Function.update s.exec_max curr (max (s.exec_max curr) delta_exec),
             sum_exec_runtime := Function.update s.sum_exec_runtime curr
               ((s.sum_exec_runtime curr + delta_exec) % 2 ^ 64),
             exec_start := Function.update s.exec_start curr (s.clock_task rq) }

/-- Function `requeue_task_wrr(rq, p)` for non-null `rq` and `p`. -/
def requeue_task_wrr (s : State) (rq p : Nat) : Option State :=
  let wrr_entity := Node.task p
  let head := Node.head rq
  if s.size rq = 1 then some s
  else list_move_tail s wrr_entity head

/-- Function `wrr_rq_of_wrr_entity`: the CPU whose `wrr_rq` is `&task_rq(wrr_entity->task)->wrr`;
`none` when `wrr_entity->task` is `NULL`. -/
def wrr_rq_of_wrr_entity (s : State) (wrr_entity : Node) : Option Nat :=
  (s.ent_task wrr_entity).map fun p => s.task_cpu p

/-- Function `dequeue_task_wrr(rq, p, flags)`; `flags` is unused.  The counters that are
decremented are those of the queue found through the entity's task. -/
def dequeue_task_wrr (s : State) (rq p : Nat) : Option State :=
  let wrr_entity := Node.task p
  (wrr_rq_of_wrr_entity s wrr_entity).bind fun wrr_rq =>
    let s1 := update_curr_wrr s rq
    (list_del s1 wrr_entity).map fun s2 =>
      { s2 with wrr_nr_running := Function.update s2.wrr_nr_running wrr_rq
                  (s2.wrr_nr_running wrr_rq - 1),
                size := Function.update s2.size wrr_rq (s2.size wrr_rq - 1),
                total_weight := Function.update s2.total_weight wrr_rq
                  (s2.total_weight wrr_rq - (s2.weight wrr_entity : Int)) }

/-- Function `pick_next_task_wrr(rq)`: the returned task (`none` for `NULL`) and the new state. -/
def pick_next_task_wrr (s : State) (rq : Nat) : Option (Option Nat × State) :=
  if s.nr_running rq ≤ 0 then some (none, s)
  else
    let head := Node.head rq
    (s.next head).map fun next_entity =>
      match s.ent_task next_entity with
      | none => (none, s)
      | some p => (some p, { s with exec_start := Function.update s.exec_start p (s.clock_task rq) })

/-- Function `set_tsk_need_resched(p)`. -/
def set_tsk_need_resched (s : State) (p : Nat) : State :=
  { s with need_resched := Function.update s.need_resched p true }

/-- The comparison `run_list.prev != run_list.next` of the two pointers of one list
head.  A poisoned `prev` (`LIST_POISON2`) and a poisoned `next` (`LIST_POISON1`) differ
from each other and from the address of every node. -/
def ptr_ne (prev next : Option Node) : Prop :=
  prev = none ∨ next = none ∨ prev ≠ next

instance ptr_ne.decide (prev next : Option Node) : Decidable (ptr_ne prev next) := by
  unfold ptr_ne; exact inferInstance

/-- Function `task_tick_wrr(rq, p, queued)`; `queued` and the local `now` are unused. -/
def task_tick_wrr (cfg : Config) (s : State) (rq p : Nat) : Option State :=
  let wrr_entity := Node.task p
  let s1 := update_curr_wrr s rq
  let s2 := { s1 with time_left := Function.update s1.time_left wrr_entity
                        (s1.time_left wrr_entity - 1) }
  if s2.time_left wrr_entity ≠ 0 then some s2
  else
    let s3 := { s2 with time_left := Function.update s2.time_left wrr_entity
                          ((s2.time_slice wrr_entity / cfg.SCHED_WRR_TICK_FACTOR : Nat) : Int) }
    if ptr_ne (s3.prev wrr_entity) (s3.next wrr_entity) then
      (requeue_task_wrr s3 rq p).map fun s4 => set_tsk_need_resched s4 p
    else
      some (set_tsk_need_resched s3 p)


/-! ## `wrr.c`: CPU selection and load balancing -/

/-- The kernel constant `INT_MAX`, the largest value of an `int`. -/
def INT_MAX : Int := 2147483647

/-- The value an `int` variable holds after it is assigned `x`: 32-bit two's complement. -/
def to_int (x : Int) : Int := (x + 2 ^ 31) % 2 ^ 32 - 2 ^ 31

/-- The loop of `most_idle_cpu` over the online CPUs still to visit, in iteration order,
on the pair of locals `(idle_cpu, lowest_total_weight)`. -/
def most_idle_cpu_loop (s : State) : List Nat → Int × Int → Int × Int
  | [], acc => acc
  | cpu :: rest, (idle_cpu, lowest_total_weight) =>
      let total_weight := to_int (s.total_weight cpu)
      if lowest_total_weight > total_weight then
        most_idle_cpu_loop s rest ((cpu : Int), total_weight)
      else
        most_idle_cpu_loop s rest (idle_cpu, lowest_total_weight)

/-- Function `most_idle_cpu`; `online` is what `for_each_online_cpu` iterates over, in
iteration order.  The result is -1 when no candidate was found. -/
def most_idle_cpu (s : State) (online : List Nat) : Int :=
  (most_idle_cpu_loop s online (-1, INT_MAX)).1

/-- Function `select_task_rq_wrr(p, sd_flag, flags)`; the two flags are unused. -/
def select_task_rq_wrr (s : State) (online : List Nat) (p : Nat) : Int :=
  let cpu := most_idle_cpu s online
  if cpu = -1 then (s.task_cpu p : Int) else cpu

/-- Function `load_balance_wrr`: its body holds nothing but a comment, so memory is
left as it is. -/
def load_balance_wrr (s : State) : State := s

/-! ## Elapsed time as the specification words it -/

/-- Predicate `seg s a l z`: following `next` from `a` visits the nodes of `l` in order and
then reaches `z`, and `prev` is the inverse of `next` along the way. -/
def seg (s : State) : Node → List Node → Node → Prop
  | a, [], z => s.next a = some z ∧ s.prev z = some a
  | a, b :: l, z => s.next a = some b ∧ s.prev b = some a ∧ seg s b l z

instance seg.decide (s : State) :
    (a : Node) → (l : List Node) → (z : Node) → Decidable (seg s a l z)
  | a, [], z => by unfold seg; exact inferInstance
  | a, b :: l, z => by
      unfold seg
      have := seg.decide s b l z
      exact inferInstance

/-- The run queue of `cpu` holds exactly the entities of the tasks `E`, in this
order from the head: the circular list starts at the sentinel, runs through the
entities of `E` and closes at the sentinel, and no task occurs twice. -/
def entries_are (s : State) (cpu : Nat) (E : List Nat) : Prop :=
  E.Nodup ∧ seg s (Node.head cpu) (E.map Node.task) (Node.head cpu)

instance entries_are.decide (s : State) (cpu : Nat) (E : List Nat) :
    Decidable (entries_are s cpu E) := by
  unfold entries_are; exact inferInstance

/-- Sum of the weights of the entities of the tasks `E`. -/
def sum_weight (s : State) (E : List Nat) : Int :=
  (E.map fun p => (s.weight (Node.task p) : Int)).sum

/-- The run queue of `cpu` is well formed with entries `E`: the list holds `E`,
`size` and `total_weight` agree with it, the sentinel carries no task (as
`init_wrr_rq` leaves it), and every listed entity points back to its own task,
which is assigned to this CPU (`task_rq(p)` is this run queue). -/
def wrr_rq_ok (s : State) (cpu : Nat) (E : List Nat) : Prop :=
  entries_are s cpu E ∧ s.size cpu = (E.length : Int) ∧ s.total_weight cpu = sum_weight s E ∧
  s.ent_task (Node.head cpu) = none ∧
  (∀ p ∈ E, s.ent_task (Node.task p) = some p) ∧ (∀ p ∈ E, s.task_cpu p = cpu)

instance wrr_rq_ok.decide (s : State) (cpu : Nat) (E : List Nat) :
    Decidable (wrr_rq_ok s cpu E) := by
  unfold wrr_rq_ok; exact inferInstance

/-! ## Sequences of calls -/

/-- A call of the scheduler core into the class, on one run queue. -/
inductive Call where
  | enqueue (p : Nat)
  | dequeue (p : Nat)
  deriving DecidableEq, Repr

/-- The state after one call on the run queue of `rq`. -/
def Call.exec (cfg : Config) (rq : Nat) (s : State) : Call → Option State
  | Call.enqueue p => enqueue_task_wrr cfg s rq p
  | Call.dequeue p => dequeue_task_wrr s rq p

/-- The state after a sequence of calls on the run queue of `rq`. -/
def run_calls (cfg : Config) (rq : Nat) : State → List Call → Option State
  | s, [] => some s
  | s, c :: cs => (c.exec cfg rq s).bind fun s1 => run_calls cfg rq s1 cs

/-- The entries expected after a call, given the entries before it. -/
def Call.entries_after (E : List Nat) : Call → List Nat
  | Call.enqueue p => E ++ [p]
  | Call.dequeue p => E.erase p

/-- The entries expected after a sequence of calls. -/
def entries_after (E : List Nat) (cs : List Call) : List Nat :=
  cs.foldl Call.entries_after E

/-- Every enqueue is of a task not in the queue at that point and every dequeue
is of a task in the queue at that point, the queue holding `E` at the start. -/
def admissible : List Nat → List Call → Prop
  | _, [] => True
  | E, Call.enqueue p :: cs => p ∉ E ∧ admissible (E ++ [p]) cs
  | E, Call.dequeue p :: cs => p ∈ E ∧ admissible (E.erase p) cs

/-- The tasks enqueued by a sequence of calls. -/
def enqueued : List Call → List Nat
  | [] => []
  | Call.enqueue p :: cs => p :: enqueued cs
  | Call.dequeue _ :: cs => enqueued cs

/-- The state after `n` consecutive calls of `task_tick_wrr(rq, p, _)`. -/
def ticks (cfg : Config) (rq p : Nat) : Nat → State → Option State
  | 0, s => some s
  | n + 1, s => (ticks cfg rq p n s).bind fun s1 => task_tick_wrr cfg s1 rq p

/-- The entity of `p` is in one of the two situations in which it is ticked here:
unlinked (the test `prev != next` fails, as `init_task_wrr` leaves it), or a member of
the run queue of `rq`, whose `size` is the number of its entries. -/
def tickable (s : State) (rq p : Nat) : Prop :=
  ¬ ptr_ne (s.prev (Node.task p)) (s.next (Node.task p)) ∨
  ∃ E, entries_are s rq E ∧ s.size rq = (E.length : Int) ∧ p ∈ E

/-- What happens to a queued task between its enqueue and any later point: a timer
tick, or a dequeue followed by a new enqueue. -/
inductive Event where
  | tick
  | reenqueue
  deriving DecidableEq, Repr

/-- The state after one event on task `p` of the run queue of `rq`. -/
def Event.exec (cfg : Config) (rq p : Nat) (s : State) : Event → Option State
  | Event.tick => task_tick_wrr cfg s rq p
  | Event.reenqueue => (dequeue_task_wrr s rq p).bind fun s1 => enqueue_task_wrr cfg s1 rq p

/-- The state after a sequence of events on task `p`. -/
def run_events (cfg : Config) (rq p : Nat) : State → List Event → Option State
  | s, [] => some s
  | s, e :: es => (e.exec cfg rq p s).bind fun s1 => run_events cfg rq p s1 es

/-! ## Concrete states -/

/-- A memory in which nothing has been set up: all pointers poisoned, all counters zero. -/
def boot : State :=
  { next := fun _ => none, prev := fun _ => none, ent_task := fun _ => none,
    weight := fun _ => 0, time_slice := fun _ => 0, time_left := fun _ => 0,
    wrr_nr_running := fun _ => 0, size := fun _ => 0, wrr_curr := fun _ => none,
    total_weight := fun _ => 0, nr_running := fun _ => 0, clock_task := fun _ => 0,
    curr := fun _ => 0, task_cpu := fun _ => 0,
    sched_class := fun _ => sched_class_ptr.fair_sched_class,
    exec_start := fun _ => 0, sum_exec_runtime := fun _ => 0, exec_max := fun _ => 0,
    need_resched := fun _ => false }

/-- A choice of constants used for concrete evaluation: weights 1 to 20, default 10,
quantum 10 and tick factor 10. -/
def cfg0 : Config := ⟨1, 20, 10, 10, 10⟩

/-- The state `s` with the weight of task `p` set to `w`, as the weight system call leaves it. -/
def set_weight (s : State) (p w : Nat) : State :=
  { s with weight := Function.update s.weight (Node.task p) w }

/-- The run queue of CPU 0 after `init_wrr_rq` and the enqueue of task 1. -/
def q1 : State := (enqueue_task_wrr cfg0 (init_wrr_rq boot 0) 0 1).getD boot

/-- The run queue of CPU 0 after the further enqueue of task 2. -/
def q12 : State := (enqueue_task_wrr cfg0 q1 0 2).getD boot

/-- The run queue of CPU 0 after the further enqueue of task 3. -/
def q123 : State := (enqueue_task_wrr cfg0 q12 0 3).getD boot

/-- Memory before the scenario of three tasks: tasks 1, 2 and 3 carry the weights 2, 4
and 2, and the `rq` of every CPU counts `n` runnable tasks. -/
def abc (n : Int) : State :=
  { set_weight (set_weight (set_weight boot 1 2) 2 4) 3 2 with nr_running := fun _ => n }

/-- The scenario of three tasks after the first enqueue, of task 1, on CPU 0. -/
def abc1 (n : Int) : State := (enqueue_task_wrr cfg0 (init_wrr_rq (abc n) 0) 0 1).getD boot

/-- The scenario of three tasks after the second enqueue, of task 2. -/
def abc2 (n : Int) : State := (enqueue_task_wrr cfg0 (abc1 n) 0 2).getD boot

/-- The scenario of three tasks after the third enqueue, of task 3. -/
def abc3 (n : Int) : State := (enqueue_task_wrr cfg0 (abc2 n) 0 3).getD boot

/-- Every run queue carries the total weight `INT_MAX`, and every task is assigned to CPU 7. -/
def saturated : State :=
  { boot with total_weight := fun _ => INT_MAX, task_cpu := fun _ => 7 }

/-- Task 2 carries the weight 2, and the run queues of CPUs 0 and 1 are initialised. -/
def lb0 : State := init_wrr_rq (init_wrr_rq (set_weight boot 2 2) 0) 1

/-- Task 1 (default weight 10) enqueued on CPU 0. -/
def lb1 : State := (enqueue_task_wrr cfg0 lb0 0 1).getD boot

/-- Task 2 (weight 2) enqueued on CPU 1: the total weights are 10 and 2. -/
def lb2 : State := (enqueue_task_wrr cfg0 lb1 1 2).getD boot

/-- The queue of CPU 0 holding task 1 after three ticks of its slice of ten, task 1 being
the current task of the `rq` and of the class that `update_curr_wrr` accounts. -/
def q1_ticked : State :=
  (ticks cfg0 0 1 3 { q1 with curr := fun _ => 1,
                              sched_class := fun _ => sched_class_ptr.wrr_sched_class }).getD boot

/-- The state `q1_ticked` after task 1 has been dequeued. -/
def q1_dequeued : State := (dequeue_task_wrr q1_ticked 0 1).getD boot

/-- The queue of CPU 0 holding tasks 1, 2 and 3 after nine ticks of task 1: one tick
of its slice of ten is left. -/
def q123_last : State := (ticks cfg0 0 1 9 q123).getD boot

/-- The state on which the tenth tick of task 1 in `q123_last` tests the pointers of
the entity: execution time accounted and `time_left` set to a full slice again. -/
def q123_reset : State :=
  { update_curr_wrr q123_last 0 with
      time_left := Function.update (update_curr_wrr q123_last 0).time_left (Node.task 1)
        (((update_curr_wrr q123_last 0).time_slice (Node.task 1) /
          cfg0.SCHED_WRR_TICK_FACTOR : Nat) : Int) }

/-- The state after the tenth tick of task 1 in `q123_last`. -/
def q123_after : State := (task_tick_wrr cfg0 q123_last 0 1).getD boot

/-- The queue of CPU 0 holding task 1 alone after nine ticks of task 1. -/
def q1_last : State := (ticks cfg0 0 1 9 q1).getD boot

/-- The state on which the tenth tick of task 1 in `q1_last` tests the pointers of the
entity. -/
def q1_reset : State :=
  { update_curr_wrr q1_last 0 with
      time_left := Function.update (update_curr_wrr q1_last 0).time_left (Node.task 1)
        (((update_curr_wrr q1_last 0).time_slice (Node.task 1) /
          cfg0.SCHED_WRR_TICK_FACTOR : Nat) : Int) }

/-- The state after the tenth tick of task 1 in `q1_last`. -/
def q1_after : State := (task_tick_wrr cfg0 q1_last 0 1).getD boot

/-! ## Lemmas on list segments -/

theorem seg_congr {s s' : State} : ∀ (l : List Node) (a z : Node),
    (∀ x ∈ a :: l, s'.next x = s.next x) → (∀ x ∈ l ++ [z], s'.prev x = s.prev x) →
    seg s a l z → seg s' a l z
  | [], a, z, hn, hp, h => by
      simp only [seg] at h ⊢
      rw [hn a (by simp), hp z (by simp)]; exact h
  | b :: l, a, z, hn, hp, h => by
      simp only [seg] at h ⊢
      refine ⟨by rw [hn a (by simp)]; exact h.1, by rw [hp b (by simp)]; exact h.2.1, ?_⟩
      exact seg_congr l b z (fun x hx => hn x (List.mem_cons_of_mem _ hx))
        (fun x hx => hp x (List.mem_cons_of_mem _ hx)) h.2.2

theorem seg_prev_last {s : State} : ∀ (l : List Node) (a z : Node),
    seg s a l z → s.prev z = some (l.getLastD a)
  | [], _, _, h => h.2
  | b :: l, a, z, h => by
      simp only [seg] at h
      rw [List.getLastD_cons]
      exact seg_prev_last l b z h.2.2

theorem seg_mid {s : State} {x : Node} (l2 : List Node) : ∀ (l1 : List Node) (a z : Node),
    seg s a (l1 ++ x :: l2) z →
    s.prev x = some (l1.getLastD a) ∧ s.next x = some (l2.headD z)
  | [], a, z, h => by
      simp only [List.nil_append, seg] at h
      refine ⟨h.2.1, ?_⟩
      cases l2 with
      | nil => exact h.2.2.1
      | cons y l2 => exact h.2.2.1
  | b :: l1, a, z, h => by
      simp only [List.cons_append, seg] at h
      rw [List.getLastD_cons]
      exact seg_mid l2 l1 b z h.2.2

theorem getLastD_mem (l : List Node) (a : Node) : l.getLastD a ∈ a :: l := by
  induction l generalizing a with
  | nil => simp
  | cons b l ih =>
      have := ih b
      simp only [List.getLastD_cons]
      exact List.mem_cons_of_mem _ this

theorem seg_add_tail {s : State} {new : Node} : ∀ (l : List Node) (a z : Node),
    (a :: l).Nodup → z ∉ l → new ∉ a :: l → new ≠ z → seg s a l z →
    seg (__list_add s new (l.getLastD a) z) a (l ++ [new]) z
  | [], a, z, _, _, hnew, hz, h => by
      have hna : new ≠ a := fun e => hnew (by simp [e])
      simp only [seg] at h
      simp [seg, __list_add, Function.update_apply, hna, hna.symm, hz, hz.symm]
  | b :: l, a, z, hnd, hzl, hnew, hz, h => by
      simp only [seg] at h
      have hnd' : (b :: l).Nodup := (List.nodup_cons.mp hnd).2
      have hal : a ∉ b :: l := (List.nodup_cons.mp hnd).1
      have ih := @seg_add_tail s new l b z hnd' (fun m => hzl (List.mem_cons_of_mem _ m))
        (fun m => hnew (List.mem_cons_of_mem _ m)) hz h.2.2
      have hlast : l.getLastD b ∈ b :: l := getLastD_mem l b
      have h1 : a ≠ l.getLastD b := fun e => hal (e ▸ hlast)
      have h2 : a ≠ new := fun e => hnew (by simp [e])
      have h3 : b ≠ new := fun e => hnew (by simp [e])
      have h4 : b ≠ z := fun e => hzl (by simp [e])
      simp only [List.cons_append, seg, List.getLastD_cons]
      refine ⟨?_, ?_, ih⟩
      · show Function.update (Function.update s.next new (some z)) (l.getLastD b) (some new) a = some b
        rw [Function.update_noteq h1, Function.update_noteq h2]
        exact h.1
      · show Function.update (Function.update s.prev z (some new)) new (some (l.getLastD b)) b = some a
        rw [Function.update_noteq h3, Function.update_noteq h4]
        exact h.2.1

theorem seg_del {s : State} {x : Node} (l2 : List Node) : ∀ (l1 : List Node) (a z : Node),
    (a :: (l1 ++ x :: l2)).Nodup → z ∉ l1 ++ x :: l2 → seg s a (l1 ++ x :: l2) z →
    seg (__list_del s (l1.getLastD a) (l2.headD z)) a (l1 ++ l2) z
  | [], a, z, hnd, hz, h => by
      simp only [List.nil_append, seg] at h hnd hz
      cases l2 with
      | nil =>
          simp [seg, __list_del]
      | cons y l2 =>
          simp only [seg] at h
          simp only [List.nil_append, seg, List.getLastD_nil, List.headD_cons]
          refine ⟨by simp [__list_del], by simp [__list_del], ?_⟩
          refine seg_congr l2 y z ?_ ?_ h.2.2.2.2
          · intro w hw
            have : w ≠ a := by
              rintro rfl
              simp only [List.nodup_cons, List.mem_cons] at hnd hw
              tauto
            simp [__list_del, Function.update_apply, this]
          · intro w hw
            have : w ≠ y := by
              rintro rfl
              simp only [List.nodup_cons, List.mem_cons, List.mem_append, List.mem_singleton] at hnd hw hz
              tauto
            simp [__list_del, Function.update_apply, this]
  | b :: l1, a, z, hnd, hz, h => by
      simp only [List.cons_append, seg] at h
      have hnd' : (b :: (l1 ++ x :: l2)).Nodup := (List.nodup_cons.mp hnd).2
      have ih := seg_del (s := s) (x := x) l2 l1 b z hnd'
        (fun m => hz (List.mem_cons_of_mem _ m)) h.2.2
      simp only [List.cons_append, seg, List.getLastD_cons]
      refine ⟨?_, ?_, ih⟩
      · have hl := getLastD_mem l1 b
        have : a ≠ l1.getLastD b := by
          intro e
          have hal := (List.nodup_cons.mp hnd).1
          rw [e] at hal
          apply hal
          simp only [List.cons_append, List.mem_cons, List.mem_append] at hl ⊢
          tauto
        show Function.update s.next (l1.getLastD b) (some (l2.headD z)) a = some b
        rw [Function.update_noteq this]
        exact h.1
      · have hb : b ≠ l2.headD z := by
          intro e
          cases l2 with
          | nil =>
              simp only [List.headD_nil] at e
              exact hz (by simp [e])
          | cons y l2 =>
              simp only [List.headD_cons] at e
              have := (List.nodup_cons.mp hnd').1
              apply this
              simp [e]
        show Function.update s.prev (l2.headD z) (some (l1.getLastD b)) b = some a
        rw [Function.update_noteq hb]
        exact h.2.1

/-! ## Lemmas on the list operations -/

theorem nodup_nodes {rq : Nat} {E : List Nat} (h : E.Nodup) :
    (Node.head rq :: E.map Node.task).Nodup := by
  refine List.nodup_cons.mpr ⟨by simp, ?_⟩
  exact h.map (fun a b hab => by cases hab; rfl)

theorem head_not_mem (rq : Nat) (E : List Nat) : Node.head rq ∉ E.map Node.task := by simp

theorem task_not_mem {p : Nat} {E : List Nat} (rq : Nat) (h : p ∉ E) :
    Node.task p ∉ Node.head rq :: E.map Node.task := by
  simpa using h

theorem entries_congr {s s' : State} {rq : Nat} {E : List Nat}
    (hn : s'.next = s.next) (hp : s'.prev = s.prev) (h : entries_are s rq E) :
    entries_are s' rq E :=
  ⟨h.1, seg_congr _ _ _ (fun _ _ => by rw [hn]) (fun _ _ => by rw [hp]) h.2⟩

/-- Appending at the tail: `list_add_tail` of a node outside the queue. -/
theorem add_tail_spec {s : State} {rq p : Nat} {E : List Nat}
    (hE : entries_are s rq E) (hp : p ∉ E) :
    ∃ s', list_add_tail s (Node.task p) (Node.head rq) = some s' ∧
      entries_are s' rq (E ++ [p]) ∧ s' = { s with next := s'.next, prev := s'.prev } := by
  have hlast := seg_prev_last _ _ _ hE.2
  refine ⟨__list_add s (Node.task p) ((E.map Node.task).getLastD (Node.head rq)) (Node.head rq),
    ?_, ⟨?_, ?_⟩, rfl⟩
  · simp [list_add_tail, hlast]
  · exact List.Nodup.append hE.1 (List.nodup_singleton p) (by simpa using hp)
  · have := @seg_add_tail s (Node.task p) _ _ _ (nodup_nodes hE.1)
      (head_not_mem rq E) (task_not_mem rq hp) (by simp) hE.2
    simpa using this

/-- Unlinking: `__list_del` around a node of the queue. -/
theorem unlink_spec {s : State} {rq p : Nat} {E : List Nat}
    (hE : entries_are s rq E) (hp : p ∈ E) :
    ∃ prev next, s.prev (Node.task p) = some prev ∧ s.next (Node.task p) = some next ∧
      entries_are (__list_del s prev next) rq (E.erase p) := by
  obtain ⟨E1, E2, rfl⟩ := List.append_of_mem hp
  have hnd := hE.1
  have hp1 : p ∉ E1 := by
    intro h
    have := List.nodup_append.mp hnd
    exact this.2.2 h (List.mem_cons_self _ _)
  have her : (E1 ++ p :: E2).erase p = E1 ++ E2 := by
    rw [List.erase_append_right _ hp1, List.erase_cons_head]
  have hseg := hE.2
  rw [List.map_append, List.map_cons] at hseg
  have hmid := seg_mid _ _ _ _ hseg
  refine ⟨_, _, hmid.1, hmid.2, ?_, ?_⟩
  · rw [her]
    have := List.nodup_append.mp hnd
    refine List.nodup_append.mpr ⟨this.1, (List.nodup_cons.mp this.2.1).2, ?_⟩
    intro a h1 h2
    exact this.2.2 h1 (List.mem_cons_of_mem _ h2)
  · rw [her, List.map_append]
    have hnn := @nodup_nodes rq _ hnd
    rw [List.map_append, List.map_cons] at hnn
    have hz := head_not_mem rq (E1 ++ p :: E2)
    rw [List.map_append, List.map_cons] at hz
    exact seg_del _ _ _ _ hnn hz hseg

/-- Removing a member: `list_del`. -/
theorem del_spec {s : State} {rq p : Nat} {E : List Nat}
    (hE : entries_are s rq E) (hp : p ∈ E) :
    ∃ s', list_del s (Node.task p) = some s' ∧
      entries_are s' rq (E.erase p) ∧ s' = { s with next := s'.next, prev := s'.prev } := by
  obtain ⟨prev, next, h1, h2, h3⟩ := unlink_spec hE hp
  refine ⟨_, by simp only [list_del, h1, h2, Option.bind_some, Option.map_some']; rfl, ?_, rfl⟩
  have hnd := h3.1
  have hpe : p ∉ E.erase p := fun h => by
    have := (List.Nodup.mem_erase_iff hE.1).mp h
    exact this.1 rfl
  refine ⟨hnd, seg_congr _ _ _ ?_ ?_ h3.2⟩
  · intro x hx
    have : x ≠ Node.task p := by
      rintro rfl
      simp at hx
      exact hpe hx
    show Function.update _ _ _ x = _
    rw [Function.update_noteq this]
  · intro x hx
    have : x ≠ Node.task p := by
      rintro rfl
      simp at hx
      exact hpe hx
    show Function.update _ _ _ x = _
    rw [Function.update_noteq this]

/-- Moving a member to the tail: `list_move_tail`. -/
theorem move_tail_spec {s : State} {rq p : Nat} {E : List Nat}
    (hE : entries_are s rq E) (hp : p ∈ E) :
    ∃ s', list_move_tail s (Node.task p) (Node.head rq) = some s' ∧
      entries_are s' rq (E.erase p ++ [p]) ∧ s' = { s with next := s'.next, prev := s'.prev } := by
  obtain ⟨prev, next, h1, h2, h3⟩ := unlink_spec hE hp
  have hpe : p ∉ E.erase p := fun h => by
    have := (List.Nodup.mem_erase_iff hE.1).mp h
    exact this.1 rfl
  obtain ⟨s', h4, h5, h6⟩ := add_tail_spec h3 hpe
  refine ⟨s', by simp only [list_move_tail, h1, h2, Option.bind_some]; exact h4, h5, h6.trans rfl⟩

/-! ## Lemmas on the operations of `wrr.c` -/

/-- Function `update_curr_wrr` writes only the execution statistics of the current task. -/
theorem update_curr_frame (s : State) (rq : Nat) :
    update_curr_wrr s rq =
      { s with exec_max := (update_curr_wrr s rq).exec_max,
               sum_exec_runtime := (update_curr_wrr s rq).sum_exec_runtime,
               exec_start := (update_curr_wrr s rq).exec_start } := by
  unfold update_curr_wrr
  simp only []
  split <;> rfl

/-- Function `init_task_wrr` writes only the fields of the entity of `p`, and unlinks it. -/
theorem init_task_frame (cfg : Config) (s : State) (p : Nat) :
    init_task_wrr cfg s p =
      { s with next := Function.update s.next (Node.task p) (some (Node.task p)),
               prev := Function.update s.prev (Node.task p) (some (Node.task p)),
               ent_task := Function.update s.ent_task (Node.task p) (some p),
               weight := (init_task_wrr cfg s p).weight,
               time_slice := (init_task_wrr cfg s p).time_slice,
               time_left := (init_task_wrr cfg s p).time_left } := by
  unfold init_task_wrr
  simp only []
  split <;> rfl

/-- The weight `init_task_wrr` leaves in the entity of `p`. -/
theorem init_task_weight (cfg : Config) (s : State) (p : Nat) :
    (init_task_wrr cfg s p).weight (Node.task p) =
      if valid_weight cfg (s.weight (Node.task p)) = 1 then s.weight (Node.task p)
      else cfg.SCHED_WRR_DEFAULT_WEIGHT := by
  unfold init_task_wrr
  simp only []
  by_cases hv : valid_weight cfg (s.weight (Node.task p)) = 1
  · by_cases hd : s.weight (Node.task p) = cfg.SCHED_WRR_DEFAULT_WEIGHT
    · simp [hv, hd, INIT_LIST_HEAD]
    · simp [hv, hd, INIT_LIST_HEAD]
  · have h0 : valid_weight cfg (s.weight (Node.task p)) = 0 := by
      unfold valid_weight at hv ⊢
      split_ifs at hv ⊢ with h
      · exact absurd rfl hv
      · rfl
    simp [h0, INIT_LIST_HEAD]

/-- Function `init_task_wrr` leaves the weights of all other entities alone. -/
theorem init_task_weight_other (cfg : Config) (s : State) (p : Nat) (n : Node)
    (h : n ≠ Node.task p) : (init_task_wrr cfg s p).weight n = s.weight n := by
  unfold init_task_wrr
  simp only []
  split
  · show Function.update s.weight (Node.task p) _ n = _
    rw [Function.update_noteq h]
  · rfl

/-- The derived fields `init_task_wrr` leaves in the entity of `p`. -/
theorem init_task_slice (cfg : Config) (s : State) (p : Nat) :
    (init_task_wrr cfg s p).time_slice (Node.task p) =
      (init_task_wrr cfg s p).weight (Node.task p) * cfg.SCHED_WRR_TIME_QUANTUM ∧
    (init_task_wrr cfg s p).time_left (Node.task p) =
      (((init_task_wrr cfg s p).time_slice (Node.task p) / cfg.SCHED_WRR_TICK_FACTOR : Nat) : Int) := by
  unfold init_task_wrr
  simp only []
  split <;> simp [INIT_LIST_HEAD]

theorem sum_weight_congr {s s' : State} {E : List Nat}
    (h : ∀ p ∈ E, s'.weight (Node.task p) = s.weight (Node.task p)) :
    sum_weight s' E = sum_weight s E := by
  unfold sum_weight
  congr 1
  exact List.map_congr_left (fun p hp => by rw [h p hp])

theorem sum_weight_append (s : State) (E : List Nat) (p : Nat) :
    sum_weight s (E ++ [p]) = sum_weight s E + (s.weight (Node.task p) : Int) := by
  simp [sum_weight]

theorem sum_weight_erase (s : State) {E : List Nat} {p : Nat} (hp : p ∈ E) :
    sum_weight s (E.erase p) = sum_weight s E - (s.weight (Node.task p) : Int) := by
  induction E with
  | nil => exact absurd hp (List.not_mem_nil _)
  | cons a E ih =>
      by_cases h : a = p
      · subst h
        simp [sum_weight]
      · have hp' : p ∈ E := by
          rcases List.mem_cons.mp hp with h1 | h1
          · exact absurd h1.symm h
          · exact h1
        have := ih hp'
        rw [List.erase_cons_tail (by simpa using h)]
        simp only [sum_weight, List.map_cons, List.sum_cons] at this ⊢
        rw [this]; ring

/-- Enqueue of a task that is not in the queue. -/
theorem enqueue_spec (cfg : Config) {s : State} {rq p : Nat} {E : List Nat}
    (hE : entries_are s rq E) (hp : p ∉ E) :
    ∃ s', enqueue_task_wrr cfg s rq p = some s' ∧ entries_are s' rq (E ++ [p]) ∧
      s' = { init_task_wrr cfg s p with
              next := s'.next, prev := s'.prev,
              wrr_nr_running := Function.update s.wrr_nr_running rq (s.wrr_nr_running rq + 1),
              size := Function.update s.size rq (s.size rq + 1),
              total_weight := Function.update s.total_weight rq
                (s.total_weight rq + ((init_task_wrr cfg s p).weight (Node.task p) : Int)) } := by
  have hfr := init_task_frame cfg s p
  have hE1 : entries_are (init_task_wrr cfg s p) rq E := by
    refine ⟨hE.1, seg_congr _ _ _ ?_ ?_ hE.2⟩
    · intro x hx
      have : x ≠ Node.task p := by
        rintro rfl
        exact task_not_mem rq hp hx
      rw [hfr]
      show Function.update s.next _ _ x = _
      rw [Function.update_noteq this]
    · intro x hx
      have : x ≠ Node.task p := by
        rintro rfl
        simp at hx
        exact hp hx
      rw [hfr]
      show Function.update s.prev _ _ x = _
      rw [Function.update_noteq this]
  have hempty : list_empty (init_task_wrr cfg s p) (Node.task p) = true := by
    rw [hfr]
    simp [list_empty]
  obtain ⟨s2, h1, h2, h3⟩ := add_tail_spec hE1 hp
  have hsz : s2.size = s.size := by rw [h3, hfr]
  have hnr : s2.wrr_nr_running = s.wrr_nr_running := by rw [h3, hfr]
  have htw : s2.total_weight = s.total_weight := by rw [h3, hfr]
  have hw : s2.weight (Node.task p) = (init_task_wrr cfg s p).weight (Node.task p) := by rw [h3]
  refine ⟨{ s2 with
      wrr_nr_running := Function.update s2.wrr_nr_running rq (s2.wrr_nr_running rq + 1),
      size := Function.update s2.size rq (s2.size rq + 1),
      total_weight := Function.update s2.total_weight rq
        (s2.total_weight rq + (s2.weight (Node.task p) : Int)) }, ?_, ?_, ?_⟩
  · unfold enqueue_task_wrr
    simp only [hempty, h1, Option.map_some']
    rfl
  · exact entries_congr (s := s2) rfl rfl h2
  · rw [hsz, hnr, htw, hw]
    exact congrArg (fun t : State => { t with
      wrr_nr_running := Function.update s.wrr_nr_running rq (s.wrr_nr_running rq + 1),
      size := Function.update s.size rq (s.size rq + 1),
      total_weight := Function.update s.total_weight rq
        (s.total_weight rq + ((init_task_wrr cfg s p).weight (Node.task p) : Int)) }) h3

/-- Dequeue of a member whose entity points back to it and which is assigned to this CPU. -/
theorem dequeue_spec {s : State} {rq p : Nat} {E : List Nat}
    (hE : entries_are s rq E) (hp : p ∈ E)
    (ht : s.ent_task (Node.task p) = some p) (hc : s.task_cpu p = rq) :
    ∃ s', dequeue_task_wrr s rq p = some s' ∧ entries_are s' rq (E.erase p) ∧
      s' = { update_curr_wrr s rq with
              next := s'.next, prev := s'.prev,
              wrr_nr_running := Function.update s.wrr_nr_running rq (s.wrr_nr_running rq - 1),
              size := Function.update s.size rq (s.size rq - 1),
              total_weight := Function.update s.total_weight rq
                (s.total_weight rq - (s.weight (Node.task p) : Int)) } := by
  have hfr := update_curr_frame s rq
  have hE1 : entries_are (update_curr_wrr s rq) rq E :=
    entries_congr (by rw [hfr]) (by rw [hfr]) hE
  obtain ⟨s2, h1, h2, h3⟩ := del_spec hE1 hp
  have hsz : s2.size = s.size := by rw [h3, hfr]
  have hnr : s2.wrr_nr_running = s.wrr_nr_running := by rw [h3, hfr]
  have htw : s2.total_weight = s.total_weight := by rw [h3, hfr]
  have hw : s2.weight (Node.task p) = s.weight (Node.task p) := by rw [h3, hfr]
  refine ⟨{ s2 with
      wrr_nr_running := Function.update s2.wrr_nr_running rq (s2.wrr_nr_running rq - 1),
      size := Function.update s2.size rq (s2.size rq - 1),
      total_weight := Function.update s2.total_weight rq
        (s2.total_weight rq - (s2.weight (Node.task p) : Int)) }, ?_, ?_, ?_⟩
  · unfold dequeue_task_wrr wrr_rq_of_wrr_entity
    simp only [ht, hc, Option.map_some', Option.bind_some, h1]
    rfl
  · exact entries_congr (s := s2) rfl rfl h2
  · rw [hsz, hnr, htw, hw]
    exact congrArg (fun t : State => { t with
      wrr_nr_running := Function.update s.wrr_nr_running rq (s.wrr_nr_running rq - 1),
      size := Function.update s.size rq (s.size rq - 1),
      total_weight := Function.update s.total_weight rq
        (s.total_weight rq - (s.weight (Node.task p) : Int)) }) h3

/-- Function `init_wrr_rq` produces a well-formed empty run queue. -/
theorem init_wrr_rq_ok (s : State) (rq : Nat) : wrr_rq_ok (init_wrr_rq s rq) rq [] := by
  refine ⟨⟨List.nodup_nil, ?_⟩, ?_, ?_, ?_, ?_, ?_⟩
  · simp [seg, init_wrr_rq, INIT_LIST_HEAD]
  · simp [init_wrr_rq, INIT_LIST_HEAD]
  · simp [init_wrr_rq, INIT_LIST_HEAD, sum_weight]
  · simp [init_wrr_rq, INIT_LIST_HEAD]
  · intro p hp; exact absurd hp (List.not_mem_nil _)
  · intro p hp; exact absurd hp (List.not_mem_nil _)

/-- Enqueue keeps a run queue well formed. -/
theorem enqueue_ok (cfg : Config) {s : State} {rq p : Nat} {E : List Nat}
    (h : wrr_rq_ok s rq E) (hp : p ∉ E) (hc : s.task_cpu p = rq) :
    ∃ s', enqueue_task_wrr cfg s rq p = some s' ∧ wrr_rq_ok s' rq (E ++ [p]) ∧
      s'.task_cpu = s.task_cpu := by
  obtain ⟨hE, hsz, htw, hsent, hback, hhome⟩ := h
  obtain ⟨s', h1, h2, h3⟩ := enqueue_spec cfg hE hp
  have hfr := init_task_frame cfg s p
  have e_size : s'.size = Function.update s.size rq (s.size rq + 1) := by rw [h3]
  have e_tw : s'.total_weight = Function.update s.total_weight rq
      (s.total_weight rq + ((init_task_wrr cfg s p).weight (Node.task p) : Int)) := by rw [h3]
  have e_w : s'.weight = (init_task_wrr cfg s p).weight := by rw [h3]
  have e_t : s'.ent_task = Function.update s.ent_task (Node.task p) (some p) := by rw [h3, hfr]
  have e_c : s'.task_cpu = s.task_cpu := by rw [h3, hfr]
  refine ⟨s', h1, ⟨h2, ?_, ?_, ?_, ?_, ?_⟩, e_c⟩
  · rw [e_size, Function.update_same, hsz]
    simp
  · rw [e_tw, Function.update_same, sum_weight_append, e_w, htw]
    congr 1
    symm
    apply sum_weight_congr
    intro q hq
    rw [e_w]
    exact init_task_weight_other cfg s p _ (by
      intro e
      cases e
      exact hp hq)
  · rw [e_t, Function.update_noteq (by simp)]
    exact hsent
  · intro q hq
    rw [e_t]
    by_cases hqp : q = p
    · subst hqp
      rw [Function.update_same]
    · rw [Function.update_noteq (by simpa using hqp)]
      rcases List.mem_append.mp hq with h | h
      · exact hback q h
      · exact absurd (List.mem_singleton.mp h) hqp
  · intro q hq
    rw [e_c]
    rcases List.mem_append.mp hq with h | h
    · exact hhome q h
    · rw [List.mem_singleton.mp h]; exact hc

/-- Dequeue of a member keeps a run queue well formed. -/
theorem dequeue_ok {s : State} {rq p : Nat} {E : List Nat}
    (h : wrr_rq_ok s rq E) (hp : p ∈ E) :
    ∃ s', dequeue_task_wrr s rq p = some s' ∧ wrr_rq_ok s' rq (E.erase p) ∧
      s'.task_cpu = s.task_cpu := by
  obtain ⟨hE, hsz, htw, hsent, hback, hhome⟩ := h
  obtain ⟨s', h1, h2, h3⟩ := dequeue_spec hE hp (hback p hp) (hhome p hp)
  have hfr := update_curr_frame s rq
  have e_size : s'.size = Function.update s.size rq (s.size rq - 1) := by rw [h3]
  have e_tw : s'.total_weight = Function.update s.total_weight rq
      (s.total_weight rq - (s.weight (Node.task p) : Int)) := by rw [h3]
  have e_w : s'.weight = s.weight := by rw [h3, hfr]
  have e_t : s'.ent_task = s.ent_task := by rw [h3, hfr]
  have e_c : s'.task_cpu = s.task_cpu := by rw [h3, hfr]
  refine ⟨s', h1, ⟨h2, ?_, ?_, ?_, ?_, ?_⟩, e_c⟩
  · rw [e_size, Function.update_same, hsz, List.length_erase_of_mem hp]
    have : 1 ≤ E.length := List.length_pos_of_mem hp
    omega
  · rw [e_tw, Function.update_same, htw, ← sum_weight_erase s hp]
    exact (sum_weight_congr (fun q _ => by rw [e_w])).symm
  · rw [e_t]; exact hsent
  · intro q hq
    rw [e_t]
    exact hback q (List.mem_of_mem_erase hq)
  · intro q hq
    rw [e_c]
    exact hhome q (List.mem_of_mem_erase hq)

theorem admissible_take : ∀ (cs : List Call) (E : List Nat) (k : Nat),
    admissible E cs → admissible E (cs.take k)
  | [], _, k, _ => by simp [admissible]
  | _ :: _, _, 0, _ => by simp [admissible]
  | Call.enqueue p :: cs, E, k + 1, h => by
      simp only [List.take_succ_cons, admissible] at h ⊢
      exact ⟨h.1, admissible_take cs _ k h.2⟩
  | Call.dequeue p :: cs, E, k + 1, h => by
      simp only [List.take_succ_cons, admissible] at h ⊢
      exact ⟨h.1, admissible_take cs _ k h.2⟩

theorem enqueued_take : ∀ (cs : List Call) (k : Nat) (p : Nat),
    p ∈ enqueued (cs.take k) → p ∈ enqueued cs
  | [], k, p, h => by simp [enqueued] at h
  | _ :: _, 0, p, h => by simp [enqueued] at h
  | Call.enqueue q :: cs, k + 1, p, h => by
      simp only [List.take_succ_cons, enqueued, List.mem_cons] at h ⊢
      rcases h with h | h
      · exact Or.inl h
      · exact Or.inr (enqueued_take cs k p h)
  | Call.dequeue q :: cs, k + 1, p, h => by
      simp only [List.take_succ_cons, enqueued] at h ⊢
      exact enqueued_take cs k p h

/-- Every admissible sequence of calls runs to completion and keeps the run queue
well formed, with the expected entries. -/
theorem run_calls_ok (cfg : Config) (rq : Nat) : ∀ (cs : List Call) (s : State) (E : List Nat),
    wrr_rq_ok s rq E → admissible E cs → (∀ p ∈ enqueued cs, s.task_cpu p = rq) →
    ∃ s', run_calls cfg rq s cs = some s' ∧ wrr_rq_ok s' rq (entries_after E cs)
  | [], s, E, h, _, _ => ⟨s, rfl, h⟩
  | Call.enqueue p :: cs, s, E, h, hadm, hcpu => by
      simp only [admissible] at hadm
      obtain ⟨s1, h1, h2, h3⟩ := enqueue_ok cfg h hadm.1 (hcpu p (by simp [enqueued]))
      obtain ⟨s', h4, h5⟩ := run_calls_ok cfg rq cs s1 _ h2 hadm.2
        (fun q hq => by rw [h3]; exact hcpu q (by simp [enqueued, hq]))
      exact ⟨s', by simp [run_calls, Call.exec, h1, h4], h5⟩
  | Call.dequeue p :: cs, s, E, h, hadm, hcpu => by
      simp only [admissible] at hadm
      obtain ⟨s1, h1, h2, h3⟩ := dequeue_ok h hadm.1
      obtain ⟨s', h4, h5⟩ := run_calls_ok cfg rq cs s1 _ h2 hadm.2
        (fun q hq => by rw [h3]; exact hcpu q (by simp [enqueued, hq]))
      exact ⟨s', by simp [run_calls, Call.exec, h1, h4], h5⟩

/-- Requeue of a member of a queue whose `size` is the number of entries. -/
theorem requeue_spec {s : State} {rq p : Nat} {E : List Nat}
    (hE : entries_are s rq E) (hsz : s.size rq = (E.length : Int)) (hp : p ∈ E) :
    ∃ s', requeue_task_wrr s rq p = some s' ∧ entries_are s' rq (E.erase p ++ [p]) ∧
      (s.size rq = 1 → s' = s) ∧
      s' = { s with next := s'.next, prev := s'.prev } := by
  by_cases h1 : s.size rq = 1
  · refine ⟨s, by simp [requeue_task_wrr, h1], ?_, fun _ => rfl, rfl⟩
    have hlen : E.length = 1 := by
      rw [h1] at hsz
      exact_mod_cast hsz.symm
    obtain ⟨a, rfl⟩ := List.length_eq_one.mp hlen
    have : p = a := by simpa using hp
    subst this
    simpa using hE
  · obtain ⟨s', h2, h3, h4⟩ := move_tail_spec hE hp
    exact ⟨s', by simp [requeue_task_wrr, h1, h2], h3, fun h => absurd h h1, h4⟩

theorem erase_eq_filter_ne {E : List Nat} (h : E.Nodup) (p : Nat) :
    E.erase p = E.filter fun q => q ≠ p := by
  rw [List.Nodup.erase_eq_filter h]
  apply List.filter_congr
  intro x _
  by_cases hx : x = p <;> simp [hx]

/-- For a member of the queue the pointer test `prev == next` holds exactly when the
member is the only entry. -/
theorem alone_iff {s : State} {rq p : Nat} {E : List Nat}
    (hE : entries_are s rq E) (hp : p ∈ E) :
    s.prev (Node.task p) = s.next (Node.task p) ↔ E.length = 1 := by
  obtain ⟨E1, E2, rfl⟩ := List.append_of_mem hp
  have hnd := hE.1
  have hseg := hE.2
  rw [List.map_append, List.map_cons] at hseg
  obtain ⟨h1, h2⟩ := seg_mid _ _ _ _ hseg
  rw [h1, h2]
  cases E1 with
  | nil =>
      cases E2 with
      | nil => simp
      | cons y E2 => simp
  | cons b E1 =>
      have hq : ((b :: E1).map Node.task).getLastD (Node.head rq) ∈ (b :: E1).map Node.task := by
        rw [List.map_cons, List.getLastD_cons]
        exact getLastD_mem _ _
      obtain ⟨q, hq1, hq2⟩ := List.mem_map.mp hq
      rw [← hq2]
      cases E2 with
      | nil => simp
      | cons y E2 =>
          have hne : q ≠ y := by
            rintro rfl
            have := (List.nodup_append.mp hnd).2.2 hq1 (by simp)
            exact this
          simp [hne]

/-- Between two pointers that are not poisoned the comparison is the plain one. -/
theorem ptr_ne_of_some {prev next : Option Node} {a b : Node}
    (ha : prev = some a) (hb : next = some b) : ptr_ne prev next ↔ prev ≠ next := by
  unfold ptr_ne
  rw [ha, hb]
  simp

/-- The pointers of a member of the queue are not poisoned. -/
theorem member_links {s : State} {rq p : Nat} {E : List Nat}
    (hE : entries_are s rq E) (hp : p ∈ E) :
    ∃ a b, s.prev (Node.task p) = some a ∧ s.next (Node.task p) = some b := by
  obtain ⟨a, b, ha, hb, _⟩ := unlink_spec hE hp
  exact ⟨a, b, ha, hb⟩

/-- For a member of the queue the pointer test of the tick is the plain comparison. -/
theorem member_ptr_ne {s : State} {rq p : Nat} {E : List Nat}
    (hE : entries_are s rq E) (hp : p ∈ E) :
    ptr_ne (s.prev (Node.task p)) (s.next (Node.task p)) ↔
      s.prev (Node.task p) ≠ s.next (Node.task p) := by
  obtain ⟨a, b, ha, hb⟩ := member_links hE hp
  exact ptr_ne_of_some ha hb

/-- The three paths of `task_tick_wrr`, written on the state `s1` that
`update_curr_wrr` returns. -/
theorem tick_paths (cfg : Config) {s s1 : State} {rq p : Nat}
    (hs1 : update_curr_wrr s rq = s1) :
    (s1.time_left (Node.task p) ≠ 1 →
      task_tick_wrr cfg s rq p =
        some { s1 with
                time_left := Function.update s1.time_left (Node.task p)
                  (s1.time_left (Node.task p) - 1) }) ∧
    (s1.time_left (Node.task p) = 1 →
      ¬ ptr_ne (s1.prev (Node.task p)) (s1.next (Node.task p)) →
      task_tick_wrr cfg s rq p =
        some (set_tsk_need_resched
          { s1 with
              time_left := Function.update s1.time_left (Node.task p)
                ((s1.time_slice (Node.task p) / cfg.SCHED_WRR_TICK_FACTOR : Nat) : Int) } p)) ∧
    (s1.time_left (Node.task p) = 1 →
      ptr_ne (s1.prev (Node.task p)) (s1.next (Node.task p)) →
      task_tick_wrr cfg s rq p =
        (requeue_task_wrr
          { s1 with
              time_left := Function.update s1.time_left (Node.task p)
                ((s1.time_slice (Node.task p) / cfg.SCHED_WRR_TICK_FACTOR : Nat) : Int) } rq p).map
          fun s4 => set_tsk_need_resched s4 p) := by
  subst hs1
  refine ⟨?_, ?_, ?_⟩
  · intro h
    unfold task_tick_wrr
    simp only [Function.update_same]
    rw [if_pos (by omega)]
  · intro h hl
    unfold task_tick_wrr
    simp only [Function.update_same, Function.update_idem, h]
    rw [if_neg (by simp), if_neg hl]
  · intro h hl
    unfold task_tick_wrr
    simp only [Function.update_same, Function.update_idem, h]
    rw [if_neg (by simp), if_pos hl]

/-- One tick on a queue member, written on the state `s1` that `update_curr_wrr` returns. -/
theorem tick_member_core (cfg : Config) {s s1 : State} {rq p : Nat} {E : List Nat}
    (hs1 : update_curr_wrr s rq = s1)
    (hE : entries_are s1 rq E) (hsz : s1.size rq = (E.length : Int)) (hp : p ∈ E) :
    ∃ s', task_tick_wrr cfg s rq p = some s' ∧
      entries_are s' rq (if s1.time_left (Node.task p) = 1 then E.erase p ++ [p] else E) ∧
      s' = { s1 with
              next := s'.next, prev := s'.prev,
              time_left := Function.update s1.time_left (Node.task p)
                (if s1.time_left (Node.task p) = 1
                  then ((s1.time_slice (Node.task p) / cfg.SCHED_WRR_TICK_FACTOR : Nat) : Int)
                  else s1.time_left (Node.task p) - 1),
              need_resched := Function.update s1.need_resched p
                (s1.need_resched p || decide (s1.time_left (Node.task p) = 1)) } := by
  obtain ⟨p1, p2, p3⟩ := @tick_paths cfg s s1 rq p hs1
  have hiff := member_ptr_ne hE hp
  by_cases h : s1.time_left (Node.task p) = 1
  · by_cases hl : s1.prev (Node.task p) = s1.next (Node.task p)
    · have hlen := (alone_iff hE hp).mp hl
      obtain ⟨a, rfl⟩ := List.length_eq_one.mp hlen
      have : p = a := by simpa using hp
      subst this
      refine ⟨_, p2 h (fun hd => hiff.mp hd hl), ?_, ?_⟩
      · rw [if_pos h]
        simpa using entries_congr (s := s1) rfl rfl hE
      · apply State.ext <;> first | rfl | simp [set_tsk_need_resched, h]
    · obtain ⟨s4, h1, h2, _, h4⟩ := requeue_spec
        (s := { s1 with
              time_left := Function.update s1.time_left (Node.task p)
                ((s1.time_slice (Node.task p) / cfg.SCHED_WRR_TICK_FACTOR : Nat) : Int) })
        (entries_congr (s := s1) rfl rfl hE) hsz hp
      refine ⟨set_tsk_need_resched s4 p, ?_, ?_, ?_⟩
      · rw [p3 h (hiff.mpr hl), h1]; rfl
      · rw [if_pos h]
        exact entries_congr (s := s4) rfl rfl h2
      · apply State.ext <;>
          first
          | rfl
          | (rw [h4]; done)
          | (simp only [set_tsk_need_resched, h, if_true]; rw [h4]; done)
          | (simp only [set_tsk_need_resched, h]; rw [h4]; simp)
  · refine ⟨_, p1 h, ?_, ?_⟩
    · rw [if_neg h]
      exact entries_congr (s := s1) rfl rfl hE
    · apply State.ext <;> first | rfl | simp [h]

/-- One tick on an unlinked entity, written on the state `s1` that `update_curr_wrr` returns. -/
theorem tick_unlinked_core (cfg : Config) {s s1 : State} {rq p : Nat}
    (hs1 : update_curr_wrr s rq = s1)
    (hl : ¬ ptr_ne (s1.prev (Node.task p)) (s1.next (Node.task p))) :
    task_tick_wrr cfg s rq p =
      some { s1 with
              time_left := Function.update s1.time_left (Node.task p)
                (if s1.time_left (Node.task p) = 1
                  then ((s1.time_slice (Node.task p) / cfg.SCHED_WRR_TICK_FACTOR : Nat) : Int)
                  else s1.time_left (Node.task p) - 1),
              need_resched := Function.update s1.need_resched p
                (s1.need_resched p || decide (s1.time_left (Node.task p) = 1)) } := by
  obtain ⟨p1, p2, _⟩ := @tick_paths cfg s s1 rq p hs1
  by_cases h : s1.time_left (Node.task p) = 1
  · rw [p2 h hl]
    congr 1
    apply State.ext <;> first | rfl | simp [set_tsk_need_resched, h]
  · rw [p1 h]
    congr 1
    apply State.ext <;> first | rfl | simp [h]

theorem sum_weight_rotate (s : State) {E : List Nat} {p : Nat} (hp : p ∈ E) :
    sum_weight s (E.erase p ++ [p]) = sum_weight s E := by
  rw [sum_weight_append, sum_weight_erase s hp]
  ring

/-- One tick on a task that can be ticked: the call returns, the task can be ticked
again, and `time_left` counts down by one or, from 1, is reset. -/
theorem tick_step (cfg : Config) {s : State} {rq p : Nat} (hT : tickable s rq p) :
    ∃ s', task_tick_wrr cfg s rq p = some s' ∧ tickable s' rq p ∧
      s'.time_left (Node.task p) =
        (if s.time_left (Node.task p) = 1
          then ((s.time_slice (Node.task p) / cfg.SCHED_WRR_TICK_FACTOR : Nat) : Int)
          else s.time_left (Node.task p) - 1) ∧
      s'.time_slice = s.time_slice ∧ s'.weight = s.weight ∧
      s'.need_resched p = (s.need_resched p || decide (s.time_left (Node.task p) = 1)) := by
  obtain ⟨s1, hs1⟩ : ∃ s1, update_curr_wrr s rq = s1 := ⟨_, rfl⟩
  have hfr := update_curr_frame s rq
  rw [hs1] at hfr
  have htl : s1.time_left = s.time_left := by rw [hfr]
  have hts : s1.time_slice = s.time_slice := by rw [hfr]
  have hw : s1.weight = s.weight := by rw [hfr]
  have hpv : s1.prev = s.prev := by rw [hfr]
  have hnx : s1.next = s.next := by rw [hfr]
  have hnr : s1.need_resched = s.need_resched := by rw [hfr]
  have hsize : s1.size = s.size := by rw [hfr]
  rcases hT with hl | ⟨E, hE, hsz, hp⟩
  · have h1 := tick_unlinked_core cfg (p := p) hs1 (by rw [hpv, hnx]; exact hl)
    refine ⟨_, h1, Or.inl ?_, ?_, hts, hw, ?_⟩
    · show ¬ ptr_ne (s1.prev _) (s1.next _)
      rw [hpv, hnx]; exact hl
    · simp [htl, hts]
    · simp [htl, hnr]
  · obtain ⟨s', h1, h2, h3⟩ := tick_member_core cfg hs1 (entries_congr hnx hpv hE)
      (by rw [hsize]; exact hsz) hp
    have e_tl : s'.time_left = Function.update s1.time_left (Node.task p)
        (if s1.time_left (Node.task p) = 1
          then ((s1.time_slice (Node.task p) / cfg.SCHED_WRR_TICK_FACTOR : Nat) : Int)
          else s1.time_left (Node.task p) - 1) := by rw [h3]
    have e_nr : s'.need_resched = Function.update s1.need_resched p
        (s1.need_resched p || decide (s1.time_left (Node.task p) = 1)) := by rw [h3]
    have e_ts : s'.time_slice = s1.time_slice := by rw [h3]
    have e_w : s'.weight = s1.weight := by rw [h3]
    have e_sz : s'.size = s1.size := by rw [h3]
    refine ⟨s', h1, Or.inr ⟨_, h2, ?_, ?_⟩, ?_, e_ts.trans hts, e_w.trans hw, ?_⟩
    · rw [e_sz, hsize, hsz]
      split_ifs
      · have : 1 ≤ E.length := List.length_pos_of_mem hp
        simp [List.length_erase_of_mem hp]
        omega
      · rfl
    · split_ifs
      · simp
      · exact hp
    · rw [e_tl, Function.update_same, htl, hts]
    · rw [e_nr, Function.update_same, htl, hnr]

theorem succ_mod_cases (m N : Nat) (hN : 0 < N) :
    (m + 1) % N = if m % N + 1 = N then 0 else m % N + 1 := by
  have hr : m % N < N := Nat.mod_lt _ hN
  rw [← Nat.mod_add_mod m N 1]
  split_ifs with h
  · rw [h, Nat.mod_self]
  · exact Nat.mod_eq_of_lt (by omega)

/-- The tick cycle: from `time_left = N = time_slice / TICK_FACTOR` with `N` positive,
after `m` ticks `time_left` is `N - m % N`, and the task has been marked for
rescheduling exactly when at least `N` ticks have passed (or it was marked before). -/
theorem tick_cycle (cfg : Config) {rq p : Nat} {s0 : State} (N : Nat) (hN : 0 < N)
    (hT : tickable s0 rq p)
    (hts : s0.time_slice (Node.task p) / cfg.SCHED_WRR_TICK_FACTOR = N)
    (htl : s0.time_left (Node.task p) = (N : Int)) :
    ∀ m, ∃ sm, ticks cfg rq p m s0 = some sm ∧ tickable sm rq p ∧
      sm.time_slice = s0.time_slice ∧ sm.weight = s0.weight ∧
      sm.time_left (Node.task p) = ((N - m % N : Nat) : Int) ∧
      sm.need_resched p = (s0.need_resched p || decide (N ≤ m)) := by
  intro m
  induction m with
  | zero =>
      refine ⟨s0, rfl, hT, rfl, rfl, ?_, ?_⟩
      · simp [htl]
      · have : ¬ N ≤ 0 := by omega
        simp [this]
  | succ m ih =>
      obtain ⟨sm, h1, h2, h3, h4, h5, h6⟩ := ih
      obtain ⟨s', g1, g2, g3, g4, g5, g6⟩ := tick_step cfg h2
      have hr : m % N < N := Nat.mod_lt _ hN
      have hsm := succ_mod_cases m N hN
      refine ⟨s', by simp [ticks, h1, g1], g2, g4.trans h3, g5.trans h4, ?_, ?_⟩
      · rw [g3, h5, h3, hts, hsm]
        by_cases hc : m % N + 1 = N
        · have : ((N - m % N : Nat) : Int) = 1 := by
            have : N - m % N = 1 := by omega
            rw [this]; rfl
          rw [if_pos this, if_pos hc]
          simp
        · have : ¬ ((N - m % N : Nat) : Int) = 1 := by
            intro h
            have : N - m % N = 1 := by exact_mod_cast h
            omega
          rw [if_neg this, if_neg hc]
          omega
      · rw [g6, h6, h5]
        by_cases hm : N ≤ m
        · have : N ≤ m + 1 := by omega
          simp [hm, this]
        · have hmod : m % N = m := Nat.mod_eq_of_lt (by omega)
          rw [hmod]
          by_cases hc : m + 1 = N
          · have h1 : ((N - m : Nat) : Int) = 1 := by
              have : N - m = 1 := by omega
              rw [this]; rfl
            have h2 : N ≤ m + 1 := by omega
            simp [hm, h1, h2]
          · have h1 : ¬ ((N - m : Nat) : Int) = 1 := by
              intro h
              have : N - m = 1 := by exact_mod_cast h
              omega
            have h2 : ¬ N ≤ m + 1 := by omega
            simp [hm, h1, h2]

/-- After `init_task_wrr` the slice of the entity lasts at least one tick, provided the
constants make the shortest slice last one tick. -/
theorem init_task_ticks_pos (cfg : Config) (s : State) (p : Nat)
    (hF : 0 < cfg.SCHED_WRR_TICK_FACTOR)
    (hmin : cfg.SCHED_WRR_TICK_FACTOR ≤ cfg.SCHED_WRR_MIN_WEIGHT * cfg.SCHED_WRR_TIME_QUANTUM)
    (hdef : cfg.SCHED_WRR_TICK_FACTOR ≤
      cfg.SCHED_WRR_DEFAULT_WEIGHT * cfg.SCHED_WRR_TIME_QUANTUM) :
    0 < (init_task_wrr cfg s p).time_slice (Node.task p) / cfg.SCHED_WRR_TICK_FACTOR := by
  apply Nat.div_pos _ hF
  rw [(init_task_slice cfg s p).1, init_task_weight]
  split_ifs with hv
  · have : cfg.SCHED_WRR_MIN_WEIGHT ≤ s.weight (Node.task p) := by
      unfold valid_weight at hv
      split_ifs at hv with h
      exact h.1
    calc cfg.SCHED_WRR_TICK_FACTOR
        ≤ cfg.SCHED_WRR_MIN_WEIGHT * cfg.SCHED_WRR_TIME_QUANTUM := hmin
      _ ≤ s.weight (Node.task p) * cfg.SCHED_WRR_TIME_QUANTUM := Nat.mul_le_mul_right _ this
  · exact hdef

/-- One tick on a member of a well-formed run queue: the call returns, the queue stays
well formed with the member moved to the tail exactly when its slice is exhausted, and
of the entity fields only `time_left` changes. -/
theorem tick_ok (cfg : Config) {s : State} {rq p : Nat} {E : List Nat}
    (h : wrr_rq_ok s rq E) (hp : p ∈ E) :
    ∃ s', task_tick_wrr cfg s rq p = some s' ∧
      wrr_rq_ok s' rq (if s.time_left (Node.task p) = 1 then E.erase p ++ [p] else E) ∧
      s'.time_left (Node.task p) =
        (if s.time_left (Node.task p) = 1
          then ((s.time_slice (Node.task p) / cfg.SCHED_WRR_TICK_FACTOR : Nat) : Int)
          else s.time_left (Node.task p) - 1) ∧
      s'.time_slice = s.time_slice ∧ s'.weight = s.weight ∧ s'.task_cpu = s.task_cpu ∧
      s'.nr_running = s.nr_running ∧ s'.size = s.size ∧ s'.total_weight = s.total_weight := by
  obtain ⟨hE, hsz, htw, hsent, hback, hhome⟩ := h
  obtain ⟨s1, hs1⟩ : ∃ s1, update_curr_wrr s rq = s1 := ⟨_, rfl⟩
  have hfr := update_curr_frame s rq
  rw [hs1] at hfr
  have htl : s1.time_left = s.time_left := by rw [hfr]
  have hts : s1.time_slice = s.time_slice := by rw [hfr]
  have hw : s1.weight = s.weight := by rw [hfr]
  have hpv : s1.prev = s.prev := by rw [hfr]
  have hnx : s1.next = s.next := by rw [hfr]
  have hsize : s1.size = s.size := by rw [hfr]
  have htot : s1.total_weight = s.total_weight := by rw [hfr]
  have het : s1.ent_task = s.ent_task := by rw [hfr]
  have hcpu : s1.task_cpu = s.task_cpu := by rw [hfr]
  have hnrr : s1.nr_running = s.nr_running := by rw [hfr]
  obtain ⟨s', h1, h2, h3⟩ := tick_member_core cfg hs1 (entries_congr hnx hpv hE)
    (by rw [hsize]; exact hsz) hp
  have e_tl : s'.time_left = Function.update s1.time_left (Node.task p)
      (if s1.time_left (Node.task p) = 1
        then ((s1.time_slice (Node.task p) / cfg.SCHED_WRR_TICK_FACTOR : Nat) : Int)
        else s1.time_left (Node.task p) - 1) := by rw [h3]
  have e_ts : s'.time_slice = s.time_slice := (by rw [h3] : s'.time_slice = s1.time_slice).trans hts
  have e_w : s'.weight = s.weight := (by rw [h3] : s'.weight = s1.weight).trans hw
  have e_sz : s'.size = s.size := (by rw [h3] : s'.size = s1.size).trans hsize
  have e_tw : s'.total_weight = s.total_weight :=
    (by rw [h3] : s'.total_weight = s1.total_weight).trans htot
  have e_et : s'.ent_task = s.ent_task := (by rw [h3] : s'.ent_task = s1.ent_task).trans het
  have e_c : s'.task_cpu = s.task_cpu := (by rw [h3] : s'.task_cpu = s1.task_cpu).trans hcpu
  have e_nr : s'.nr_running = s.nr_running :=
    (by rw [h3] : s'.nr_running = s1.nr_running).trans hnrr
  rw [htl] at h2
  refine ⟨s', h1, ⟨h2, ?_, ?_, ?_, ?_, ?_⟩, ?_, e_ts, e_w, e_c, e_nr, e_sz, e_tw⟩
  · rw [e_sz, hsz]
    split_ifs
    · have : 1 ≤ E.length := List.length_pos_of_mem hp
      simp [List.length_erase_of_mem hp]
      omega
    · rfl
  · rw [e_tw, htw]
    have : sum_weight s' = sum_weight s := by
      funext l
      exact sum_weight_congr (fun q _ => by rw [e_w])
    rw [this]
    split_ifs
    · exact (sum_weight_rotate s hp).symm
    · rfl
  · rw [e_et]; exact hsent
  · intro q hq
    rw [e_et]
    apply hback
    split_ifs at hq
    · rcases List.mem_append.mp hq with hq | hq
      · exact List.mem_of_mem_erase hq
      · rw [List.mem_singleton.mp hq]; exact hp
    · exact hq
  · intro q hq
    rw [e_c]
    apply hhome
    split_ifs at hq
    · rcases List.mem_append.mp hq with hq | hq
      · exact List.mem_of_mem_erase hq
      · rw [List.mem_singleton.mp hq]; exact hp
    · exact hq
  · rw [e_tl, Function.update_same, htl, hts]

/-- The entity fields and the enclosing `rq` after an enqueue of a task not in the queue. -/
theorem enqueue_fields (cfg : Config) {s s' : State} {rq p : Nat} {E : List Nat}
    (hE : entries_are s rq E) (hp : p ∉ E) (h : enqueue_task_wrr cfg s rq p = some s') :
    s'.weight = (init_task_wrr cfg s p).weight ∧
    s'.time_slice = (init_task_wrr cfg s p).time_slice ∧
    s'.time_left = (init_task_wrr cfg s p).time_left ∧
    s'.ent_task = Function.update s.ent_task (Node.task p) (some p) ∧
    s'.nr_running = s.nr_running ∧ s'.need_resched = s.need_resched ∧
    s'.size rq = s.size rq + 1 ∧
    s'.total_weight rq = s.total_weight rq + ((init_task_wrr cfg s p).weight (Node.task p) : Int) ∧
    entries_are s' rq (E ++ [p]) := by
  obtain ⟨s2, h1, h2, h3⟩ := enqueue_spec cfg hE hp
  rw [h] at h1
  cases h1
  have hfr := init_task_frame cfg s p
  refine ⟨by rw [h3], by rw [h3], by rw [h3], by rw [h3, hfr], by rw [h3, hfr], by rw [h3, hfr],
    ?_, ?_, h2⟩
  · have : s'.size = Function.update s.size rq (s.size rq + 1) := by rw [h3]
    rw [this, Function.update_same]
  · have : s'.total_weight = Function.update s.total_weight rq
        (s.total_weight rq + ((init_task_wrr cfg s p).weight (Node.task p) : Int)) := by rw [h3]
    rw [this, Function.update_same]

/-- Function `pick_next_task_wrr` on a queue whose sentinel carries no task and whose first
entity points back to its task. -/
theorem pick_spec {s : State} {rq : Nat} {E : List Nat}
    (hE : entries_are s rq E) (hs : s.ent_task (Node.head rq) = none)
    (hb : ∀ p ∈ E, s.ent_task (Node.task p) = some p) :
    pick_next_task_wrr s rq =
      some (match (if 0 < s.nr_running rq then E.head? else none) with
        | none => (none, s)
        | some p => (some p,
            { s with exec_start := Function.update s.exec_start p (s.clock_task rq) })) := by
  unfold pick_next_task_wrr
  by_cases hn : 0 < s.nr_running rq
  · rw [if_neg (by omega), if_pos hn]
    cases E with
    | nil =>
        have := hE.2
        simp only [List.map_nil, seg] at this
        simp [this.1, hs]
    | cons a E =>
        have := hE.2
        simp only [List.map_cons, seg] at this
        simp [this.1, hb a (by simp)]
  · rw [if_pos (by omega), if_neg hn]

/-- While the slice is not exhausted the ticks leave the queue as it is. -/
theorem ticks_before_expiry (cfg : Config) {rq p : Nat} {E : List Nat} {s : State} (N : Nat)
    (h : wrr_rq_ok s rq E) (hp : p ∈ E) (htl : s.time_left (Node.task p) = (N : Int)) :
    ∀ k, k < N → ∃ sk, ticks cfg rq p k s = some sk ∧ wrr_rq_ok sk rq E ∧
      sk.time_left (Node.task p) = ((N - k : Nat) : Int) ∧
      sk.time_slice = s.time_slice ∧ sk.weight = s.weight ∧ sk.size = s.size ∧
      sk.total_weight = s.total_weight := by
  intro k
  induction k with
  | zero =>
      intro _
      exact ⟨s, rfl, h, by simpa using htl, rfl, rfl, rfl, rfl⟩
  | succ k ih =>
      intro hk
      obtain ⟨sk, h1, h2, h3, h4, h5, h6, h7⟩ := ih (by omega)
      obtain ⟨s', g1, g2, g3, g4, g5, _, _, g8, g9⟩ := tick_ok cfg h2 hp
      have hne : ¬ sk.time_left (Node.task p) = 1 := by
        rw [h3]
        intro e
        have : N - k = 1 := by exact_mod_cast e
        omega
      rw [if_neg hne] at g2 g3
      refine ⟨s', by simp [ticks, h1, g1], g2, ?_, g4.trans h4, g5.trans h5, g8.trans h6,
        g9.trans h7⟩
      rw [g3, h3]
      omega

/-- The tick that exhausts the slice moves the member to the tail and resets `time_left`. -/
theorem ticks_expiry (cfg : Config) {rq p : Nat} {E : List Nat} {s : State} (N : Nat)
    (hN : 0 < N) (h : wrr_rq_ok s rq E) (hp : p ∈ E)
    (htl : s.time_left (Node.task p) = (N : Int)) :
    ∃ sN, ticks cfg rq p N s = some sN ∧ wrr_rq_ok sN rq (E.erase p ++ [p]) ∧
      sN.time_left (Node.task p) =
        ((s.time_slice (Node.task p) / cfg.SCHED_WRR_TICK_FACTOR : Nat) : Int) ∧
      sN.time_slice = s.time_slice ∧ sN.weight = s.weight ∧ sN.size = s.size ∧
      sN.total_weight = s.total_weight := by
  obtain ⟨k, rfl⟩ : ∃ k, N = k + 1 := ⟨N - 1, by omega⟩
  obtain ⟨sk, h1, h2, h3, h4, h5, h6, h7⟩ := ticks_before_expiry cfg (k + 1) h hp htl k (by omega)
  obtain ⟨s', g1, g2, g3, g4, g5, _, _, g8, g9⟩ := tick_ok cfg h2 hp
  have he : sk.time_left (Node.task p) = 1 := by
    rw [h3]
    have : k + 1 - k = 1 := by omega
    rw [this]; rfl
  rw [if_pos he] at g2 g3
  refine ⟨s', by simp [ticks, h1, g1], g2, ?_, g4.trans h4, g5.trans h5, g8.trans h6,
    g9.trans h7⟩
  rw [g3, h4]

/-- The invariant of a queued entity: the queue is well formed and holds the task, the
slice is the weight times the quantum, and `time_left` lies between 1 and the slice in ticks. -/
theorem entity_inv_events (cfg : Config) (rq p : Nat)
    (hF : 0 < cfg.SCHED_WRR_TICK_FACTOR)
    (hmin : cfg.SCHED_WRR_TICK_FACTOR ≤ cfg.SCHED_WRR_MIN_WEIGHT * cfg.SCHED_WRR_TIME_QUANTUM)
    (hdef : cfg.SCHED_WRR_TICK_FACTOR ≤
      cfg.SCHED_WRR_DEFAULT_WEIGHT * cfg.SCHED_WRR_TIME_QUANTUM) :
    ∀ (es : List Event) (s : State) (E : List Nat), wrr_rq_ok s rq E → p ∈ E →
      s.time_slice (Node.task p) = s.weight (Node.task p) * cfg.SCHED_WRR_TIME_QUANTUM →
      1 ≤ s.time_left (Node.task p) →
      s.time_left (Node.task p) ≤
        ((s.time_slice (Node.task p) / cfg.SCHED_WRR_TICK_FACTOR : Nat) : Int) →
      ∃ s', run_events cfg rq p s es = some s' ∧
        s'.time_slice (Node.task p) = s'.weight (Node.task p) * cfg.SCHED_WRR_TIME_QUANTUM ∧
        1 ≤ s'.time_left (Node.task p) ∧
        s'.time_left (Node.task p) ≤
          ((s'.time_slice (Node.task p) / cfg.SCHED_WRR_TICK_FACTOR : Nat) : Int)
  | [], s, _, _, _, h1, h2, h3 => ⟨s, rfl, h1, h2, h3⟩
  | Event.tick :: es, s, E, hok, hp, h1, h2, h3 => by
      obtain ⟨s1, g1, g2, g3, g4, g5, _⟩ := tick_ok cfg hok hp
      have hp' : p ∈ (if s.time_left (Node.task p) = 1 then E.erase p ++ [p] else E) := by
        split_ifs
        · simp
        · exact hp
      obtain ⟨s', k1, k2⟩ := entity_inv_events cfg rq p hF hmin hdef es s1 _ g2 hp'
        (by rw [g4, g5]; exact h1)
        (by
          rw [g3]
          split_ifs with hc
          · have : 1 ≤ s.time_slice (Node.task p) / cfg.SCHED_WRR_TICK_FACTOR := by
              rw [hc] at h3
              exact_mod_cast h3
            exact_mod_cast this
          · omega)
        (by
          rw [g3, g4]
          split_ifs with hc
          · exact le_refl _
          · omega)
      exact ⟨s', by simp [run_events, Event.exec, g1, k1], k2⟩
  | Event.reenqueue :: es, s, E, hok, hp, _, _, _ => by
      obtain ⟨s1, g1, g2, g3⟩ := dequeue_ok hok hp
      have hpe : p ∉ E.erase p := fun h => by
        have := (List.Nodup.mem_erase_iff hok.1.1).mp h
        exact this.1 rfl
      have hc : s1.task_cpu p = rq := by
        rw [g3]; exact hok.2.2.2.2.2 p hp
      obtain ⟨s2, k1, k2, _⟩ := enqueue_ok cfg g2 hpe hc
      obtain ⟨f1, f2, f3, _⟩ := enqueue_fields cfg g2.1 hpe k1
      have hsl := init_task_slice cfg s1 p
      have hpos := init_task_ticks_pos cfg s1 p hF hmin hdef
      obtain ⟨s', m1, m2⟩ := entity_inv_events cfg rq p hF hmin hdef es s2 _ k2 (by simp)
        (by rw [f1, f2]; exact hsl.1)
        (by rw [f3, hsl.2]; exact_mod_cast hpos)
        (by rw [f3, f2, hsl.2])
      exact ⟨s', by simp [run_events, Event.exec, g1, k1, m1], m2⟩

/-- Function `init_task_wrr` leaves the derived fields of all other entities alone. -/
theorem init_task_other (cfg : Config) (s : State) (p : Nat) (n : Node)
    (h : n ≠ Node.task p) :
    (init_task_wrr cfg s p).time_slice n = s.time_slice n ∧
    (init_task_wrr cfg s p).time_left n = s.time_left n := by
  unfold init_task_wrr
  simp only []
  split
  · exact ⟨by
      show Function.update s.time_slice (Node.task p) _ n = _
      rw [Function.update_noteq h], by
      show Function.update s.time_left (Node.task p) _ n = _
      rw [Function.update_noteq h]⟩
  · exact ⟨by
      show Function.update s.time_slice (Node.task p) _ n = _
      rw [Function.update_noteq h], by
      show Function.update s.time_left (Node.task p) _ n = _
      rw [Function.update_noteq h]⟩

/-- Well-formedness only reads the links, the two counters, the weights, the task
pointers of the entities and the CPU of the tasks. -/
theorem wrr_rq_ok_congr {s s' : State} {rq : Nat} {E : List Nat}
    (hn : s'.next = s.next) (hp : s'.prev = s.prev) (hsz : s'.size = s.size)
    (htw : s'.total_weight = s.total_weight) (hw : s'.weight = s.weight)
    (het : s'.ent_task = s.ent_task) (hc : s'.task_cpu = s.task_cpu)
    (h : wrr_rq_ok s rq E) : wrr_rq_ok s' rq E := by
  obtain ⟨h1, h2, h3, h4, h5, h6⟩ := h
  refine ⟨entries_congr hn hp h1, by rw [hsz]; exact h2, ?_, by rw [het]; exact h4,
    fun q hq => by rw [het]; exact h5 q hq, fun q hq => by rw [hc]; exact h6 q hq⟩
  rw [htw, h3]
  exact (sum_weight_congr (fun q _ => by rw [hw])).symm

theorem seg_unique {s : State} : ∀ (l l' : List Node) (a z : Node),
    z ∉ l → z ∉ l' → seg s a l z → seg s a l' z → l = l'
  | [], [], _, _, _, _, _, _ => rfl
  | [], b :: l', a, z, _, hz', h, h' => by
      simp only [seg] at h h'
      have : b = z := by
        have := h'.1.symm.trans h.1
        exact Option.some.inj this
      exact absurd (by simp [this]) hz'
  | b :: l, [], a, z, hz, _, h, h' => by
      simp only [seg] at h h'
      have : b = z := by
        have := h.1.symm.trans h'.1
        exact Option.some.inj this
      exact absurd (by simp [this]) hz
  | b :: l, b' :: l', a, z, hz, hz', h, h' => by
      simp only [seg] at h h'
      have hb : b = b' := by
        have := h.1.symm.trans h'.1
        exact Option.some.inj this
      subst hb
      have := seg_unique l l' b z (fun m => hz (List.mem_cons_of_mem _ m))
        (fun m => hz' (List.mem_cons_of_mem _ m)) h.2.2 h'.2.2
      rw [this]

/-- The entries of a run queue are determined by the state. -/
theorem entries_unique {s : State} {rq : Nat} {E E' : List Nat}
    (h : entries_are s rq E) (h' : entries_are s rq E') : E = E' := by
  have := seg_unique _ _ _ _ (head_not_mem rq E) (head_not_mem rq E') h.2 h'.2
  exact List.map_injective_iff.mpr (fun a b hab => by cases hab; rfl) this

/-! ## A tick on a dequeued entity -/

/-- After `dequeue_task_wrr` the pointers of the entity are poisoned, `prev` and `next`
with different values: at the expiry of the slice the pointer test of `task_tick_wrr`
holds, `requeue_task_wrr` is called on the empty queue, and `list_move_tail`
dereferences the poison. -/
theorem tick_after_dequeue_faults :
    (dequeue_task_wrr q1_last 0 1).isSome = true ∧
    ((dequeue_task_wrr q1_last 0 1).getD boot).prev (Node.task 1) = none ∧
    ((dequeue_task_wrr q1_last 0 1).getD boot).next (Node.task 1) = none ∧
    ptr_ne (((dequeue_task_wrr q1_last 0 1).getD boot).prev (Node.task 1))
      (((dequeue_task_wrr q1_last 0 1).getD boot).next (Node.task 1)) ∧
    (task_tick_wrr cfg0 ((dequeue_task_wrr q1_last 0 1).getD boot) 0 1).isNone = true := by
  decide

/-! ## The claims -/

/-- C1: starting from the run queue produced by `init_wrr_rq`, along every sequence of
`enqueue_task_wrr` and `dequeue_task_wrr` calls in which each enqueue is of a task not in
the queue and each dequeue is of a task in the queue (the tasks being assigned to this
CPU), every call returns, and after every call (every prefix `cs.take k`) the list holds
the expected entries, `size` is their number and `total_weight` the sum of their weights. -/
theorem counters_track_entries (cfg : Config) (s : State) (rq : Nat) (cs : List Call)
    (hadm : admissible [] cs) (hcpu : ∀ p ∈ enqueued cs, s.task_cpu p = rq) (k : Nat) :
    ∃ s', run_calls cfg rq (init_wrr_rq s rq) (cs.take k) = some s' ∧
      entries_are s' rq (entries_after [] (cs.take k)) ∧
      s'.size rq = ((entries_after [] (cs.take k)).length : Int) ∧
      s'.total_weight rq = sum_weight s' (entries_after [] (cs.take k)) := by
  obtain ⟨s', h1, h2⟩ := run_calls_ok cfg rq (cs.take k) (init_wrr_rq s rq) []
    (init_wrr_rq_ok s rq) (admissible_take cs [] k hadm)
    (fun p hp => hcpu p (enqueued_take cs k p hp))
  exact ⟨s', h1, h2.1, h2.2.1, h2.2.2.1⟩

/-- Witness of C1: enqueue 1, enqueue 2, dequeue 1 on CPU 0. -/
theorem counters_track_entries_witness :
    admissible [] [Call.enqueue 1, Call.enqueue 2, Call.dequeue 1] ∧
    (∀ p ∈ enqueued [Call.enqueue 1, Call.enqueue 2, Call.dequeue 1], boot.task_cpu p = 0) ∧
    ∃ s', run_calls cfg0 0 (init_wrr_rq boot 0)
        ([Call.enqueue 1, Call.enqueue 2, Call.dequeue 1].take 3) = some s' ∧
      entries_are s' 0 (entries_after [] ([Call.enqueue 1, Call.enqueue 2, Call.dequeue 1].take 3)) ∧
      s'.size 0 =
        ((entries_after [] ([Call.enqueue 1, Call.enqueue 2, Call.dequeue 1].take 3)).length : Int) ∧
      s'.total_weight 0 =
        sum_weight s' (entries_after [] ([Call.enqueue 1, Call.enqueue 2, Call.dequeue 1].take 3)) :=
  ⟨by simp [admissible], fun _ _ => rfl,
    counters_track_entries cfg0 boot 0 [Call.enqueue 1, Call.enqueue 2, Call.dequeue 1]
      (by simp [admissible]) (fun _ _ => rfl) 3⟩

/-- C2 (evaluation of the code): the guard of `enqueue_task_wrr` never fires, because
`init_task_wrr` has just made the entity point to itself; and on the well-formed queue
holding the single task 1, a second enqueue of task 1 raises `size` from 1 to 2 and
`total_weight` from 10 to 20 and leaves the entity of task 1 pointing to itself, so that
the list no longer closes at the sentinel and holds no sequence of entries at all. -/
theorem double_enqueue_is_not_a_noop :
    (∀ (cfg : Config) (s : State) (p : Nat),
      list_empty (init_task_wrr cfg s p) (Node.task p) = true) ∧
    wrr_rq_ok q1 0 [1] ∧
    ∃ s2, enqueue_task_wrr cfg0 q1 0 1 = some s2 ∧
      q1.size 0 = 1 ∧ s2.size 0 = 2 ∧ q1.total_weight 0 = 10 ∧ s2.total_weight 0 = 20 ∧
      s2.next (Node.task 1) = some (Node.task 1) ∧ ∀ E, ¬ entries_are s2 0 E := by
  refine ⟨?_, by decide, _, rfl, by decide, by decide, by decide, by decide, by decide, ?_⟩
  · intro cfg s p
    rw [init_task_frame]
    simp [list_empty]
  · intro E hE
    have hone : ¬ entries_are ((enqueue_task_wrr cfg0 q1 0 1).getD boot) 0 [1] := by decide
    have hh : ((enqueue_task_wrr cfg0 q1 0 1).getD boot).next (Node.head 0) =
        some (Node.task 1) := by decide
    have ht : ((enqueue_task_wrr cfg0 q1 0 1).getD boot).next (Node.task 1) =
        some (Node.task 1) := by decide
    have hE' : entries_are ((enqueue_task_wrr cfg0 q1 0 1).getD boot) 0 E := hE
    obtain ⟨hnd, hseg⟩ := hE'
    cases E with
    | nil =>
        simp only [List.map_nil, seg] at hseg
        rw [hh] at hseg
        exact absurd hseg.1 (by decide)
    | cons a E =>
        simp only [List.map_cons, seg] at hseg
        rw [hh] at hseg
        have ha : a = 1 := by
          have := Option.some.inj hseg.1
          cases this
          rfl
        subst ha
        cases E with
        | nil =>
            simp only [List.map_nil, seg] at hseg
            rw [ht] at hseg
            exact absurd hseg.2.2.1 (by decide)
        | cons b E =>
            simp only [List.map_cons, seg] at hseg
            rw [ht] at hseg
            have hb : b = 1 := by
              have := Option.some.inj hseg.2.2.1
              cases this
              rfl
            subst hb
            simp at hnd

/-- C3: on a run queue with entries `E` and for a task `p` not in it, `enqueue_task_wrr`
returns, the entries become `E` followed by `p`, `size` grows by exactly 1, and
`total_weight` grows by exactly the weight of `p` after initialisation, which is the old
weight when that was valid and the default weight otherwise. -/
theorem enqueue_appends_at_tail (cfg : Config) (s : State) (rq p : Nat) (E : List Nat)
    (hE : entries_are s rq E) (hp : p ∉ E) :
    ∃ s', enqueue_task_wrr cfg s rq p = some s' ∧ entries_are s' rq (E ++ [p]) ∧
      s'.size rq = s.size rq + 1 ∧
      s'.total_weight rq = s.total_weight rq + (s'.weight (Node.task p) : Int) ∧
      s'.weight (Node.task p) =
        (if valid_weight cfg (s.weight (Node.task p)) = 1 then s.weight (Node.task p)
         else cfg.SCHED_WRR_DEFAULT_WEIGHT) := by
  obtain ⟨s', h1, h2, h3⟩ := enqueue_spec cfg hE hp
  have e_size : s'.size = Function.update s.size rq (s.size rq + 1) := by rw [h3]
  have e_tw : s'.total_weight = Function.update s.total_weight rq
      (s.total_weight rq + ((init_task_wrr cfg s p).weight (Node.task p) : Int)) := by rw [h3]
  have e_w : s'.weight = (init_task_wrr cfg s p).weight := by rw [h3]
  refine ⟨s', h1, h2, ?_, ?_, ?_⟩
  · rw [e_size, Function.update_same]
  · rw [e_tw, Function.update_same, e_w]
  · rw [e_w, init_task_weight]

/-- Witness of C3: enqueue of task 1 on the empty run queue of CPU 0. -/
theorem enqueue_appends_at_tail_witness :
    entries_are (init_wrr_rq boot 0) 0 [] ∧ 1 ∉ ([] : List Nat) ∧
    ∃ s', enqueue_task_wrr cfg0 (init_wrr_rq boot 0) 0 1 = some s' ∧
      entries_are s' 0 ([] ++ [1]) ∧
      s'.size 0 = (init_wrr_rq boot 0).size 0 + 1 ∧
      s'.total_weight 0 = (init_wrr_rq boot 0).total_weight 0 + (s'.weight (Node.task 1) : Int) ∧
      s'.weight (Node.task 1) =
        (if valid_weight cfg0 ((init_wrr_rq boot 0).weight (Node.task 1)) = 1
          then (init_wrr_rq boot 0).weight (Node.task 1)
         else cfg0.SCHED_WRR_DEFAULT_WEIGHT) :=
  ⟨by decide, by decide,
    enqueue_appends_at_tail cfg0 (init_wrr_rq boot 0) 0 1 [] (by decide) (by decide)⟩

/-- C4: on a run queue with entries `E` and for a member `p` (its entity points back to
`p`, and `p` is assigned to this CPU), `dequeue_task_wrr` returns, the entries become `E`
with exactly `p` removed, all others in their previous order, `size` drops by exactly 1
and `total_weight` by exactly the weight of `p`. -/
theorem dequeue_removes_member (s : State) (rq p : Nat) (E : List Nat)
    (hE : entries_are s rq E) (hp : p ∈ E)
    (ht : s.ent_task (Node.task p) = some p) (hc : s.task_cpu p = rq) :
    ∃ s', dequeue_task_wrr s rq p = some s' ∧
      entries_are s' rq (E.filter fun q => q ≠ p) ∧
      s'.size rq = s.size rq - 1 ∧
      s'.total_weight rq = s.total_weight rq - (s.weight (Node.task p) : Int) := by
  obtain ⟨s', h1, h2, h3⟩ := dequeue_spec hE hp ht hc
  have e_size : s'.size = Function.update s.size rq (s.size rq - 1) := by rw [h3]
  have e_tw : s'.total_weight = Function.update s.total_weight rq
      (s.total_weight rq - (s.weight (Node.task p) : Int)) := by rw [h3]
  refine ⟨s', h1, ?_, ?_, ?_⟩
  · rw [← erase_eq_filter_ne hE.1]
    exact h2
  · rw [e_size, Function.update_same]
  · rw [e_tw, Function.update_same]

/-- Witness of C4: dequeue of task 1 from the queue holding tasks 1 and 2. -/
theorem dequeue_removes_member_witness :
    entries_are q12 0 [1, 2] ∧ 1 ∈ [1, 2] ∧ q12.ent_task (Node.task 1) = some 1 ∧
    q12.task_cpu 1 = 0 ∧
    ∃ s', dequeue_task_wrr q12 0 1 = some s' ∧
      entries_are s' 0 ([1, 2].filter fun q => q ≠ 1) ∧
      s'.size 0 = q12.size 0 - 1 ∧
      s'.total_weight 0 = q12.total_weight 0 - (q12.weight (Node.task 1) : Int) :=
  ⟨by decide, by decide, by decide, by decide,
    dequeue_removes_member q12 0 1 [1, 2] (by decide) (by decide) (by decide) (by decide)⟩

/-- C5: on a run queue with entries `E` whose `size` is the number of entries, and for a
member `p`, `requeue_task_wrr` returns; when `size` is 1 the state, hence the entries, is
unchanged; when `size` is at least 2 the entries become `E` with `p` removed from its
position and appended at the tail, all others in their previous order; in both cases
`size` and `total_weight` are unchanged. -/
theorem requeue_moves_to_tail (s : State) (rq p : Nat) (E : List Nat)
    (hE : entries_are s rq E) (hsz : s.size rq = (E.length : Int)) (hp : p ∈ E) :
    ∃ s', requeue_task_wrr s rq p = some s' ∧
      (s.size rq = 1 → s' = s ∧ entries_are s' rq E) ∧
      (2 ≤ s.size rq → entries_are s' rq ((E.filter fun q => q ≠ p) ++ [p])) ∧
      s'.size rq = s.size rq ∧ s'.total_weight rq = s.total_weight rq := by
  obtain ⟨s', h1, h2, h3, h4⟩ := requeue_spec hE hsz hp
  refine ⟨s', h1, ?_, ?_, by rw [h4], by rw [h4]⟩
  · intro h
    have := h3 h
    subst this
    exact ⟨rfl, hE⟩
  · intro _
    rw [← erase_eq_filter_ne hE.1]
    exact h2

/-- Witness of C5: requeue of task 1 in the queue holding tasks 1, 2 and 3. -/
theorem requeue_moves_to_tail_witness :
    entries_are q123 0 [1, 2, 3] ∧ q123.size 0 = (([1, 2, 3] : List Nat).length : Int) ∧
    1 ∈ [1, 2, 3] ∧
    ∃ s', requeue_task_wrr q123 0 1 = some s' ∧
      (q123.size 0 = 1 → s' = q123 ∧ entries_are s' 0 [1, 2, 3]) ∧
      (2 ≤ q123.size 0 → entries_are s' 0 (([1, 2, 3].filter fun q => q ≠ 1) ++ [1])) ∧
      s'.size 0 = q123.size 0 ∧ s'.total_weight 0 = q123.total_weight 0 :=
  ⟨by decide, by decide, by decide,
    requeue_moves_to_tail q123 0 1 [1, 2, 3] (by decide) (by decide) (by decide)⟩
/-- C6: for every entity freshly set up by `init_task_wrr` (directly, or by the
`init_task_wrr` call of `enqueue_task_wrr` on a queue that does not hold the task), with
`N = time_slice / SCHED_WRR_TICK_FACTOR`, every `task_tick_wrr` call returns and after `m`
calls `time_left` is `N - m % N`: it counts down by one per call, the `N`-th call finds the
slice exhausted and resets `time_left` to `N`, and the cycle repeats with period `N`.  The
task is marked for rescheduling for the first time by the `N`-th call.  The constants are
such that the shortest slice lasts at least one tick. -/
theorem tick_countdown_cycle (cfg : Config) (s s0 : State) (rq p : Nat)
    (hF : 0 < cfg.SCHED_WRR_TICK_FACTOR)
    (hmin : cfg.SCHED_WRR_TICK_FACTOR ≤ cfg.SCHED_WRR_MIN_WEIGHT * cfg.SCHED_WRR_TIME_QUANTUM)
    (hdef : cfg.SCHED_WRR_TICK_FACTOR ≤
      cfg.SCHED_WRR_DEFAULT_WEIGHT * cfg.SCHED_WRR_TIME_QUANTUM)
    (hstart : s0 = init_task_wrr cfg s p ∨
      ∃ E, entries_are s rq E ∧ s.size rq = (E.length : Int) ∧ p ∉ E ∧
        enqueue_task_wrr cfg s rq p = some s0)
    (m : Nat) :
    0 < s0.time_slice (Node.task p) / cfg.SCHED_WRR_TICK_FACTOR ∧
    ∃ sm, ticks cfg rq p m s0 = some sm ∧
      sm.time_slice (Node.task p) = s0.time_slice (Node.task p) ∧
      sm.time_left (Node.task p) =
        ((s0.time_slice (Node.task p) / cfg.SCHED_WRR_TICK_FACTOR -
          m % (s0.time_slice (Node.task p) / cfg.SCHED_WRR_TICK_FACTOR) : Nat) : Int) ∧
      sm.need_resched p =
        (s0.need_resched p ||
          decide (s0.time_slice (Node.task p) / cfg.SCHED_WRR_TICK_FACTOR ≤ m)) := by
  have hpos := init_task_ticks_pos cfg s p hF hmin hdef
  have hsl := init_task_slice cfg s p
  have key : tickable s0 rq p ∧
      s0.time_slice (Node.task p) = (init_task_wrr cfg s p).time_slice (Node.task p) ∧
      s0.time_left (Node.task p) = (init_task_wrr cfg s p).time_left (Node.task p) := by
    rcases hstart with h | ⟨E, hE, hsz, hp, h⟩
    · subst h
      refine ⟨Or.inl ?_, rfl, rfl⟩
      rw [init_task_frame]
      simp [ptr_ne]
    · obtain ⟨_, f2, f3, _, _, _, f7, _, f9⟩ := enqueue_fields cfg hE hp h
      refine ⟨Or.inr ⟨_, f9, ?_, by simp⟩, by rw [f2], by rw [f3]⟩
      rw [f7, hsz]
      simp
  obtain ⟨hT, k1, k2⟩ := key
  rw [k1]
  refine ⟨hpos, ?_⟩
  obtain ⟨sm, h1, _, h3, _, h5, h6⟩ := tick_cycle cfg
    ((init_task_wrr cfg s p).time_slice (Node.task p) / cfg.SCHED_WRR_TICK_FACTOR) hpos hT
    (by rw [k1]) (by rw [k2, hsl.2]) m
  exact ⟨sm, h1, by rw [h3, k1], h5, h6⟩

/-- Witness of C6: task 1 enqueued on the empty queue of CPU 0, then 25 ticks. -/
theorem tick_countdown_cycle_witness :
    0 < cfg0.SCHED_WRR_TICK_FACTOR ∧
    cfg0.SCHED_WRR_TICK_FACTOR ≤ cfg0.SCHED_WRR_MIN_WEIGHT * cfg0.SCHED_WRR_TIME_QUANTUM ∧
    cfg0.SCHED_WRR_TICK_FACTOR ≤ cfg0.SCHED_WRR_DEFAULT_WEIGHT * cfg0.SCHED_WRR_TIME_QUANTUM ∧
    (q1 = init_task_wrr cfg0 (init_wrr_rq boot 0) 1 ∨
      ∃ E, entries_are (init_wrr_rq boot 0) 0 E ∧
        (init_wrr_rq boot 0).size 0 = (E.length : Int) ∧ 1 ∉ E ∧
        enqueue_task_wrr cfg0 (init_wrr_rq boot 0) 0 1 = some q1) ∧
    (0 < q1.time_slice (Node.task 1) / cfg0.SCHED_WRR_TICK_FACTOR ∧
    ∃ sm, ticks cfg0 0 1 25 q1 = some sm ∧
      sm.time_slice (Node.task 1) = q1.time_slice (Node.task 1) ∧
      sm.time_left (Node.task 1) =
        ((q1.time_slice (Node.task 1) / cfg0.SCHED_WRR_TICK_FACTOR -
          25 % (q1.time_slice (Node.task 1) / cfg0.SCHED_WRR_TICK_FACTOR) : Nat) : Int) ∧
      sm.need_resched 1 =
        (q1.need_resched 1 ||
          decide (q1.time_slice (Node.task 1) / cfg0.SCHED_WRR_TICK_FACTOR ≤ 25))) :=
  ⟨by decide, by decide, by decide, Or.inr ⟨[], by decide, by decide, by decide, rfl⟩,
    tick_countdown_cycle cfg0 (init_wrr_rq boot 0) q1 0 1 (by decide) (by decide) (by decide)
      (Or.inr ⟨[], by decide, by decide, by decide, rfl⟩) 25⟩

/-- C7: for every entity set up by the `init_task_wrr` call of `enqueue_task_wrr` on a
well-formed run queue and then subjected to any sequence of `task_tick_wrr` calls and
re-enqueues (dequeue followed by enqueue), every call returns and at every point
`time_slice = weight * SCHED_WRR_TIME_QUANTUM` and `time_left` lies in the closed range
from 0 to `time_slice / SCHED_WRR_TICK_FACTOR` (it is in fact at least 1).  The constants
are such that the shortest slice lasts at least one tick. -/
theorem entity_fields_invariant (cfg : Config) (s s0 : State) (rq p : Nat) (E : List Nat)
    (hF : 0 < cfg.SCHED_WRR_TICK_FACTOR)
    (hmin : cfg.SCHED_WRR_TICK_FACTOR ≤ cfg.SCHED_WRR_MIN_WEIGHT * cfg.SCHED_WRR_TIME_QUANTUM)
    (hdef : cfg.SCHED_WRR_TICK_FACTOR ≤
      cfg.SCHED_WRR_DEFAULT_WEIGHT * cfg.SCHED_WRR_TIME_QUANTUM)
    (hq : wrr_rq_ok s rq E) (hp : p ∉ E) (hc : s.task_cpu p = rq)
    (h0 : enqueue_task_wrr cfg s rq p = some s0) (es : List Event) :
    ∃ s', run_events cfg rq p s0 es = some s' ∧
      s'.time_slice (Node.task p) = s'.weight (Node.task p) * cfg.SCHED_WRR_TIME_QUANTUM ∧
      0 ≤ s'.time_left (Node.task p) ∧
      s'.time_left (Node.task p) ≤
        ((s'.time_slice (Node.task p) / cfg.SCHED_WRR_TICK_FACTOR : Nat) : Int) ∧
      1 ≤ s'.time_left (Node.task p) := by
  obtain ⟨s1, k1, k2, _⟩ := enqueue_ok cfg hq hp hc
  rw [h0] at k1
  cases k1
  obtain ⟨f1, f2, f3, _⟩ := enqueue_fields cfg hq.1 hp h0
  have hsl := init_task_slice cfg s p
  have hpos := init_task_ticks_pos cfg s p hF hmin hdef
  obtain ⟨s', m1, m2, m3, m4⟩ := entity_inv_events cfg rq p hF hmin hdef es s0 _ k2 (by simp)
    (by rw [f1, f2]; exact hsl.1)
    (by rw [f3, hsl.2]; exact_mod_cast hpos)
    (by rw [f3, f2, hsl.2])
  exact ⟨s', m1, m2, by omega, m4, m3⟩

/-- Witness of C7: task 1 enqueued on the empty queue of CPU 0, then ticks and a re-enqueue. -/
theorem entity_fields_invariant_witness :
    0 < cfg0.SCHED_WRR_TICK_FACTOR ∧
    cfg0.SCHED_WRR_TICK_FACTOR ≤ cfg0.SCHED_WRR_MIN_WEIGHT * cfg0.SCHED_WRR_TIME_QUANTUM ∧
    cfg0.SCHED_WRR_TICK_FACTOR ≤ cfg0.SCHED_WRR_DEFAULT_WEIGHT * cfg0.SCHED_WRR_TIME_QUANTUM ∧
    wrr_rq_ok (init_wrr_rq boot 0) 0 [] ∧ 1 ∉ ([] : List Nat) ∧
    (init_wrr_rq boot 0).task_cpu 1 = 0 ∧
    enqueue_task_wrr cfg0 (init_wrr_rq boot 0) 0 1 = some q1 ∧
    ∃ s', run_events cfg0 0 1 q1 [Event.tick, Event.tick, Event.reenqueue, Event.tick] = some s' ∧
      s'.time_slice (Node.task 1) = s'.weight (Node.task 1) * cfg0.SCHED_WRR_TIME_QUANTUM ∧
      0 ≤ s'.time_left (Node.task 1) ∧
      s'.time_left (Node.task 1) ≤
        ((s'.time_slice (Node.task 1) / cfg0.SCHED_WRR_TICK_FACTOR : Nat) : Int) ∧
      1 ≤ s'.time_left (Node.task 1) :=
  ⟨by decide, by decide, by decide, by decide, by decide, rfl, rfl,
    entity_fields_invariant cfg0 (init_wrr_rq boot 0) q1 0 1 [] (by decide) (by decide)
      (by decide) (by decide) (by decide) rfl rfl
      [Event.tick, Event.tick, Event.reenqueue, Event.tick]⟩

/-- C8 (as stated, refuted): on the empty run queue of a CPU whose `rq` counts no runnable
task, enqueueing tasks 1, 2, 3 of weights 2, 4, 2 gives size 3, total weight 8 and the
entries `[1, 2, 3]`, but `pick_next_task_wrr` then returns no task: its guard reads
`rq->nr_running`, which no operation of the class raises. -/
theorem scenario_pick_needs_nr_running :
    enqueue_task_wrr cfg0 (init_wrr_rq (abc 0) 0) 0 1 = some (abc1 0) ∧
    enqueue_task_wrr cfg0 (abc1 0) 0 2 = some (abc2 0) ∧
    enqueue_task_wrr cfg0 (abc2 0) 0 3 = some (abc3 0) ∧
    (abc3 0).size 0 = 3 ∧ (abc3 0).total_weight 0 = 8 ∧ entries_are (abc3 0) 0 [1, 2, 3] ∧
    (abc3 0).nr_running 0 = 0 ∧
    (pick_next_task_wrr (abc3 0) 0).map Prod.fst = some none ∧
    (pick_next_task_wrr (abc3 0) 0).map Prod.fst ≠ some (some 1) := by
  refine ⟨rfl, rfl, rfl, by decide, by decide, by decide, rfl, by decide, by decide⟩

/-- C8 (amended): on the run queue produced by `init_wrr_rq`, with the `rq` counting at
least one runnable task, enqueueing the distinct tasks `a`, `b`, `c` of this CPU with
weights 2, 4, 2 (valid weights) gives size 3, total weight 8 and entries `[a, b, c]`;
`pick_next_task_wrr` then returns `a`; and after `time_slice / SCHED_WRR_TICK_FACTOR`
ticks of `a` (at least one) the entries are `[b, c, a]`, size and total weight unchanged. -/
theorem scenario_three_tasks (cfg : Config) (s : State) (rq a b c : Nat)
    (hab : a ≠ b) (hac : a ≠ c) (hbc : b ≠ c)
    (hwa : s.weight (Node.task a) = 2) (hwb : s.weight (Node.task b) = 4)
    (hwc : s.weight (Node.task c) = 2)
    (hca : s.task_cpu a = rq) (hcb : s.task_cpu b = rq) (hcc : s.task_cpu c = rq)
    (hv2 : valid_weight cfg 2 = 1) (hv4 : valid_weight cfg 4 = 1)
    (hN : 0 < 2 * cfg.SCHED_WRR_TIME_QUANTUM / cfg.SCHED_WRR_TICK_FACTOR)
    (hnr : 0 < s.nr_running rq) :
    ∃ s1 s2 s3 s4 s5,
      enqueue_task_wrr cfg (init_wrr_rq s rq) rq a = some s1 ∧
      enqueue_task_wrr cfg s1 rq b = some s2 ∧
      enqueue_task_wrr cfg s2 rq c = some s3 ∧
      s3.size rq = 3 ∧ s3.total_weight rq = 8 ∧ entries_are s3 rq [a, b, c] ∧
      pick_next_task_wrr s3 rq = some (some a, s4) ∧
      ticks cfg rq a (s4.time_slice (Node.task a) / cfg.SCHED_WRR_TICK_FACTOR) s4 = some s5 ∧
      entries_are s5 rq [b, c, a] ∧ s5.size rq = 3 ∧ s5.total_weight rq = 8 := by
  have nab : Node.task a ≠ Node.task b := fun e => hab (by cases e; rfl)
  have nac : Node.task a ≠ Node.task c := fun e => hac (by cases e; rfl)
  have nbc : Node.task b ≠ Node.task c := fun e => hbc (by cases e; rfl)
  have ok0 := init_wrr_rq_ok s rq
  have w0 : ∀ p, (init_wrr_rq s rq).weight (Node.task p) = s.weight (Node.task p) := by
    intro p
    simp [init_wrr_rq, INIT_LIST_HEAD]
  -- first enqueue
  obtain ⟨s1, e1, ok1, c1⟩ := enqueue_ok cfg ok0 (List.not_mem_nil a) hca
  obtain ⟨f1w, f1s, f1l, _, f1n, _⟩ := enqueue_fields cfg ok0.1 (List.not_mem_nil a) e1
  have w1a : s1.weight (Node.task a) = 2 := by
    rw [f1w, init_task_weight, w0, hwa, if_pos hv2]
  have w1b : s1.weight (Node.task b) = 4 := by
    rw [f1w, init_task_weight_other _ _ _ _ nab.symm, w0, hwb]
  have w1c : s1.weight (Node.task c) = 2 := by
    rw [f1w, init_task_weight_other _ _ _ _ nac.symm, w0, hwc]
  have sl1 : s1.time_slice (Node.task a) = 2 * cfg.SCHED_WRR_TIME_QUANTUM := by
    rw [f1s, (init_task_slice cfg _ a).1, ← f1w, w1a]
  have tl1 : s1.time_left (Node.task a) =
      ((2 * cfg.SCHED_WRR_TIME_QUANTUM / cfg.SCHED_WRR_TICK_FACTOR : Nat) : Int) := by
    rw [f1l, (init_task_slice cfg _ a).2, ← f1s, sl1]
  -- second enqueue
  have hb1 : b ∉ [] ++ [a] := by simpa using hab.symm
  obtain ⟨s2, e2, ok2, c2⟩ := enqueue_ok cfg ok1 hb1 (by rw [c1]; exact hcb)
  obtain ⟨f2w, f2s, f2l, _, f2n, _⟩ := enqueue_fields cfg ok1.1 hb1 e2
  have w2a : s2.weight (Node.task a) = 2 := by
    rw [f2w, init_task_weight_other _ _ _ _ nab, w1a]
  have w2b : s2.weight (Node.task b) = 4 := by
    rw [f2w, init_task_weight, w1b, if_pos hv4]
  have w2c : s2.weight (Node.task c) = 2 := by
    rw [f2w, init_task_weight_other _ _ _ _ nbc.symm, w1c]
  have sl2 : s2.time_slice (Node.task a) = 2 * cfg.SCHED_WRR_TIME_QUANTUM := by
    rw [f2s, (init_task_other cfg _ b _ nab).1, sl1]
  have tl2 : s2.time_left (Node.task a) =
      ((2 * cfg.SCHED_WRR_TIME_QUANTUM / cfg.SCHED_WRR_TICK_FACTOR : Nat) : Int) := by
    rw [f2l, (init_task_other cfg _ b _ nab).2, tl1]
  -- third enqueue
  have hc2 : c ∉ ([] ++ [a]) ++ [b] := by
    simp only [List.nil_append, List.cons_append, List.mem_cons, List.mem_singleton,
      List.not_mem_nil, or_false, not_or]
    exact ⟨hac.symm, hbc.symm⟩
  obtain ⟨s3, e3, ok3, c3⟩ := enqueue_ok cfg ok2 hc2 (by rw [c2, c1]; exact hcc)
  obtain ⟨f3w, f3s, f3l, _, f3n, _⟩ := enqueue_fields cfg ok2.1 hc2 e3
  have w3a : s3.weight (Node.task a) = 2 := by
    rw [f3w, init_task_weight_other _ _ _ _ nac, w2a]
  have w3b : s3.weight (Node.task b) = 4 := by
    rw [f3w, init_task_weight_other _ _ _ _ nbc, w2b]
  have w3c : s3.weight (Node.task c) = 2 := by
    rw [f3w, init_task_weight, w2c, if_pos hv2]
  have sl3 : s3.time_slice (Node.task a) = 2 * cfg.SCHED_WRR_TIME_QUANTUM := by
    rw [f3s, (init_task_other cfg _ c _ nac).1, sl2]
  have tl3 : s3.time_left (Node.task a) =
      ((2 * cfg.SCHED_WRR_TIME_QUANTUM / cfg.SCHED_WRR_TICK_FACTOR : Nat) : Int) := by
    rw [f3l, (init_task_other cfg _ c _ nac).2, tl2]
  have ok3' : wrr_rq_ok s3 rq [a, b, c] := by simpa using ok3
  have nr3 : s3.nr_running rq = s.nr_running rq := by
    rw [f3n, f2n, f1n]
    rfl
  have hsize : s3.size rq = 3 := by
    rw [ok3'.2.1]; rfl
  have htot : s3.total_weight rq = 8 := by
    rw [ok3'.2.2.1]
    simp [sum_weight, w3a, w3b, w3c]
  -- pick
  have hpick := pick_spec ok3'.1 ok3'.2.2.2.1 ok3'.2.2.2.2.1
  rw [if_pos (by rw [nr3]; exact hnr)] at hpick
  simp only [List.head?_cons] at hpick
  have ok4 : wrr_rq_ok
      { s3 with exec_start := Function.update s3.exec_start a (s3.clock_task rq) } rq [a, b, c] :=
    wrr_rq_ok_congr rfl rfl rfl rfl rfl rfl rfl ok3'
  -- ticks
  obtain ⟨s5, t1, t2, _, _, _, t6, t7⟩ := ticks_expiry cfg
    (2 * cfg.SCHED_WRR_TIME_QUANTUM / cfg.SCHED_WRR_TICK_FACTOR) hN ok4
    (List.mem_cons_self a _) tl3
  have hrot : [a, b, c].erase a ++ [a] = [b, c, a] := by simp
  rw [hrot] at t2
  refine ⟨s1, s2, s3, _, s5, e1, e2, e3, hsize, htot, ok3'.1, hpick, ?_, t2.1, ?_, ?_⟩
  · show ticks cfg rq a (s3.time_slice (Node.task a) / cfg.SCHED_WRR_TICK_FACTOR) _ = some s5
    rw [sl3]
    exact t1
  · rw [t6]; exact hsize
  · rw [t7]; exact htot

/-- Witness of C8 (amended): tasks 1, 2, 3 on CPU 0, whose `rq` counts three runnable tasks. -/
theorem scenario_three_tasks_witness :
    (1 : Nat) ≠ 2 ∧ (1 : Nat) ≠ 3 ∧ (2 : Nat) ≠ 3 ∧
    (abc 3).weight (Node.task 1) = 2 ∧ (abc 3).weight (Node.task 2) = 4 ∧
    (abc 3).weight (Node.task 3) = 2 ∧
    (abc 3).task_cpu 1 = 0 ∧ (abc 3).task_cpu 2 = 0 ∧ (abc 3).task_cpu 3 = 0 ∧
    valid_weight cfg0 2 = 1 ∧ valid_weight cfg0 4 = 1 ∧
    0 < 2 * cfg0.SCHED_WRR_TIME_QUANTUM / cfg0.SCHED_WRR_TICK_FACTOR ∧
    0 < (abc 3).nr_running 0 ∧
    ∃ s1 s2 s3 s4 s5,
      enqueue_task_wrr cfg0 (init_wrr_rq (abc 3) 0) 0 1 = some s1 ∧
      enqueue_task_wrr cfg0 s1 0 2 = some s2 ∧
      enqueue_task_wrr cfg0 s2 0 3 = some s3 ∧
      s3.size 0 = 3 ∧ s3.total_weight 0 = 8 ∧ entries_are s3 0 [1, 2, 3] ∧
      pick_next_task_wrr s3 0 = some (some 1, s4) ∧
      ticks cfg0 0 1 (s4.time_slice (Node.task 1) / cfg0.SCHED_WRR_TICK_FACTOR) s4 = some s5 ∧
      entries_are s5 0 [2, 3, 1] ∧ s5.size 0 = 3 ∧ s5.total_weight 0 = 8 :=
  ⟨by decide, by decide, by decide, by decide, by decide, by decide, rfl, rfl, rfl,
    by decide, by decide, by decide, by decide,
    scenario_three_tasks cfg0 (abc 3) 0 1 2 3 (by decide) (by decide) (by decide)
      (by decide) (by decide) (by decide) rfl rfl rfl (by decide) (by decide) (by decide)
      (by decide)⟩

/-- C9 (as stated, refuted): the run queue of CPU 0 holds task 1 and is well formed, the
`rq` counts no runnable task, and `pick_next_task_wrr` returns no task instead of task 1,
the task of the first entity. -/
theorem pick_next_guarded_by_nr_running :
    wrr_rq_ok q1 0 [1] ∧ q1.nr_running 0 = 0 ∧
    (pick_next_task_wrr q1 0).map Prod.fst = some none ∧
    (pick_next_task_wrr q1 0).map Prod.fst ≠ some ([1].head?) := by
  refine ⟨by decide, rfl, by decide, by decide⟩

/-- C9 (amended): on a run queue with entries `E` whose sentinel carries no task (as
`init_wrr_rq` leaves it) and whose entities point back to their tasks,
`pick_next_task_wrr` returns; the result is the task of the first entity when the list is
non-empty and `rq->nr_running` is positive, and none when the list is empty (whatever
`rq->nr_running` is) or `rq->nr_running` is not positive; entries, order, `size` and
`total_weight` are unchanged, the only effect being that `exec_start` of the returned
task becomes the `rq` clock. -/
theorem pick_next_returns_head (s : State) (rq : Nat) (E : List Nat)
    (hE : entries_are s rq E) (hs : s.ent_task (Node.head rq) = none)
    (hb : ∀ p ∈ E, s.ent_task (Node.task p) = some p) :
    ∃ r s', pick_next_task_wrr s rq = some (r, s') ∧
      r = (if 0 < s.nr_running rq then E.head? else none) ∧
      (E = [] → r = none) ∧
      entries_are s' rq E ∧ s'.size rq = s.size rq ∧ s'.total_weight rq = s.total_weight rq ∧
      s' = { s with exec_start :=
              match r with
              | none => s.exec_start
              | some p => Function.update s.exec_start p (s.clock_task rq) } := by
  have hpick := pick_spec hE hs hb
  cases hr : (if 0 < s.nr_running rq then E.head? else none) with
  | none =>
      rw [hr] at hpick
      exact ⟨none, s, hpick, rfl, fun _ => rfl, hE, rfl, rfl, rfl⟩
  | some p =>
      rw [hr] at hpick
      refine ⟨some p, _, hpick, rfl, ?_, entries_congr (s := s) rfl rfl hE, rfl, rfl, rfl⟩
      intro hnil
      subst hnil
      simp at hr

/-- Witness of C9 (amended): the queue holding tasks 1, 2, 3 with three runnable tasks counted. -/
theorem pick_next_returns_head_witness :
    entries_are (abc3 3) 0 [1, 2, 3] ∧ (abc3 3).ent_task (Node.head 0) = none ∧
    (∀ p ∈ [1, 2, 3], (abc3 3).ent_task (Node.task p) = some p) ∧
    ∃ r s', pick_next_task_wrr (abc3 3) 0 = some (r, s') ∧
      r = (if 0 < (abc3 3).nr_running 0 then [1, 2, 3].head? else none) ∧
      (([1, 2, 3] : List Nat) = [] → r = none) ∧
      entries_are s' 0 [1, 2, 3] ∧ s'.size 0 = (abc3 3).size 0 ∧
      s'.total_weight 0 = (abc3 3).total_weight 0 ∧
      s' = { abc3 3 with exec_start :=
              match r with
              | none => (abc3 3).exec_start
              | some p => Function.update (abc3 3).exec_start p ((abc3 3).clock_task 0) } :=
  ⟨by decide, by decide, by decide,
    pick_next_returns_head (abc3 3) 0 [1, 2, 3] (by decide) (by decide) (by decide)⟩

/-- C10: on a well-formed run queue that holds exactly the entity of `p`,
`dequeue_task_wrr` of `p` returns and leaves `size` 0, `total_weight` 0 and an empty
list, and a subsequent `pick_next_task_wrr` returns no task (and changes nothing). -/
theorem dequeue_sole_entity (s : State) (rq p : Nat) (h : wrr_rq_ok s rq [p]) :
    ∃ s1, dequeue_task_wrr s rq p = some s1 ∧
      s1.size rq = 0 ∧ s1.total_weight rq = 0 ∧ entries_are s1 rq [] ∧
      pick_next_task_wrr s1 rq = some (none, s1) := by
  obtain ⟨s1, h1, h2, _⟩ := dequeue_ok h (List.mem_singleton_self p)
  have he : [p].erase p = [] := by simp
  rw [he] at h2
  have hpick := pick_spec h2.1 h2.2.2.2.1 h2.2.2.2.2.1
  refine ⟨s1, h1, ?_, ?_, h2.1, ?_⟩
  · rw [h2.2.1]; rfl
  · rw [h2.2.2.1]; rfl
  · rw [hpick]
    split_ifs <;> rfl

/-- Witness of C10: the queue of CPU 0 holding only task 1. -/
theorem dequeue_sole_entity_witness :
    wrr_rq_ok q1 0 [1] ∧
    ∃ s1, dequeue_task_wrr q1 0 1 = some s1 ∧
      s1.size 0 = 0 ∧ s1.total_weight 0 = 0 ∧ entries_are s1 0 [] ∧
      pick_next_task_wrr s1 0 = some (none, s1) :=
  ⟨by decide, dequeue_sole_entity q1 0 1 (by decide)⟩

/-! ## Lemmas on CPU selection -/

/-- The loop keeps its locals when no CPU still to visit is below the lowest weight so far. -/
theorem loop_keep (s : State) : ∀ (l : List Nat) (i lo : Int),
    (∀ c ∈ l, lo ≤ to_int (s.total_weight c)) → most_idle_cpu_loop s l (i, lo) = (i, lo)
  | [], _, _, _ => rfl
  | cpu :: rest, i, lo, h => by
      have h1 : ¬ lo > to_int (s.total_weight cpu) := not_lt.mpr (h cpu (List.mem_cons_self _ _))
      simp only [most_idle_cpu_loop, if_neg h1]
      exact loop_keep s rest i lo (fun c hc => h c (List.mem_cons_of_mem _ hc))

/-- When some CPU still to visit is below the lowest weight so far, the loop ends on the
first CPU of least weight. -/
theorem loop_find (s : State) : ∀ (l : List Nat) (i lo : Int),
    (∃ c ∈ l, to_int (s.total_weight c) < lo) →
    ∃ (pre : List Nat) (c : Nat) (post : List Nat), l = pre ++ c :: post ∧
      most_idle_cpu_loop s l (i, lo) = ((c : Int), to_int (s.total_weight c)) ∧
      (∀ d ∈ pre, to_int (s.total_weight c) < to_int (s.total_weight d)) ∧
      (∀ d ∈ post, to_int (s.total_weight c) ≤ to_int (s.total_weight d)) ∧
      to_int (s.total_weight c) < lo
  | [], _, _, h => by
      obtain ⟨c, hc, _⟩ := h
      exact absurd hc (List.not_mem_nil _)
  | cpu :: rest, i, lo, h => by
      by_cases h1 : lo > to_int (s.total_weight cpu)
      · simp only [most_idle_cpu_loop, if_pos h1]
        by_cases h2 : ∃ c ∈ rest, to_int (s.total_weight c) < to_int (s.total_weight cpu)
        · obtain ⟨pre, c, post, e1, e2, e3, e4, e5⟩ :=
            loop_find s rest (cpu : Int) (to_int (s.total_weight cpu)) h2
          refine ⟨cpu :: pre, c, post, by rw [e1]; rfl, e2, ?_, e4, lt_trans e5 h1⟩
          intro d hd
          rcases List.mem_cons.mp hd with hd | hd
          · rw [hd]; exact e5
          · exact e3 d hd
        · have h3 : ∀ c ∈ rest, to_int (s.total_weight cpu) ≤ to_int (s.total_weight c) := by
            intro c hc
            by_contra hlt
            exact h2 ⟨c, hc, not_le.mp hlt⟩
          refine ⟨[], cpu, rest, rfl, loop_keep s rest _ _ h3, ?_, h3, h1⟩
          intro d hd
          exact absurd hd (List.not_mem_nil _)
      · simp only [most_idle_cpu_loop, if_neg h1]
        have h2 : ∃ c ∈ rest, to_int (s.total_weight c) < lo := by
          obtain ⟨c, hc, hlt⟩ := h
          rcases List.mem_cons.mp hc with hc | hc
          · rw [hc] at hlt
            exact absurd hlt h1
          · exact ⟨c, hc, hlt⟩
        obtain ⟨pre, c, post, e1, e2, e3, e4, e5⟩ := loop_find s rest i lo h2
        refine ⟨cpu :: pre, c, post, by rw [e1]; rfl, e2, ?_, e4, e5⟩
        intro d hd
        rcases List.mem_cons.mp hd with hd | hd
        · rw [hd]
          exact lt_of_lt_of_le e5 (not_lt.mp h1)
        · exact e3 d hd

/-- A value in the range of `int` is what an `int` variable holds after the assignment. -/
theorem to_int_of_range {x : Int} (h1 : -2147483648 ≤ x) (h2 : x ≤ INT_MAX) : to_int x = x := by
  unfold to_int
  unfold INT_MAX at h2
  omega

/-- The result of `most_idle_cpu` is -1 exactly when the loop found no candidate. -/
theorem most_idle_cpu_none (s : State) (online : List Nat)
    (h : ∀ c ∈ online, INT_MAX ≤ to_int (s.total_weight c)) : most_idle_cpu s online = -1 := by
  unfold most_idle_cpu
  rw [loop_keep s online _ _ h]

/-! ## The claims on CPU selection and load balancing -/

/-- C11 (as stated, refuted): CPUs 0 and 1 are online and both run queues carry the total
weight `INT_MAX`; the scan, which starts from `INT_MAX` and compares strictly, finds no
candidate, and `select_task_rq_wrr` returns the CPU of the task, 7, which is not online. -/
theorem select_misses_saturated_cpus :
    ([0, 1] : List Nat) ≠ [] ∧
    saturated.total_weight 0 = INT_MAX ∧ saturated.total_weight 1 = INT_MAX ∧
    most_idle_cpu saturated [0, 1] = -1 ∧
    select_task_rq_wrr saturated [0, 1] 9 = 7 ∧
    ¬ ∃ c ∈ ([0, 1] : List Nat), select_task_rq_wrr saturated [0, 1] 9 = (c : Int) := by
  refine ⟨by decide, rfl, rfl, by decide, by decide, by decide⟩

/-- C11 (amended): for every list of online CPUs, in iteration order, whose total weights
are values of an `int` and of which at least one is below `INT_MAX`,
`select_task_rq_wrr` returns an online CPU `c` whose total weight is at most that of every
online CPU, and `c` is the first such CPU in iteration order: every CPU visited before it
has a strictly larger total weight, so with the CPUs visited in ascending order `c` is
the lowest index among the CPUs of least total weight. -/
theorem select_returns_first_least_loaded (s : State) (online : List Nat) (p : Nat)
    (hr : ∀ c ∈ online, -2147483648 ≤ s.total_weight c ∧ s.total_weight c ≤ INT_MAX)
    (hc : ∃ c ∈ online, s.total_weight c < INT_MAX) :
    ∃ (pre : List Nat) (c : Nat) (post : List Nat), online = pre ++ c :: post ∧
      select_task_rq_wrr s online p = (c : Int) ∧
      (∀ d ∈ online, s.total_weight c ≤ s.total_weight d) ∧
      (∀ d ∈ pre, s.total_weight c < s.total_weight d) ∧
      (online.Pairwise (fun a b => a < b) →
        ∀ d ∈ online, s.total_weight d = s.total_weight c → c ≤ d) := by
  have hid : ∀ c ∈ online, to_int (s.total_weight c) = s.total_weight c :=
    fun c hcm => to_int_of_range (hr c hcm).1 (hr c hcm).2
  obtain ⟨c0, hc0, hlt⟩ := hc
  obtain ⟨pre, c, post, e1, e2, e3, e4, _⟩ := loop_find s online (-1) INT_MAX
    ⟨c0, hc0, by rw [hid c0 hc0]; exact hlt⟩
  have hcm : c ∈ online := by rw [e1]; simp
  have hpre : ∀ d ∈ pre, d ∈ online := fun d hd => by rw [e1]; simp [hd]
  have hpost : ∀ d ∈ post, d ∈ online := fun d hd => by rw [e1]; simp [hd]
  have e3' : ∀ d ∈ pre, s.total_weight c < s.total_weight d := by
    intro d hd
    have := e3 d hd
    rwa [hid c hcm, hid d (hpre d hd)] at this
  have e4' : ∀ d ∈ post, s.total_weight c ≤ s.total_weight d := by
    intro d hd
    have := e4 d hd
    rwa [hid c hcm, hid d (hpost d hd)] at this
  refine ⟨pre, c, post, e1, ?_, ?_, e3', ?_⟩
  · unfold select_task_rq_wrr most_idle_cpu
    rw [e2]
    have : ¬ ((c : Int) = -1) := by omega
    simp only [if_neg this]
  · intro d hd
    rw [e1] at hd
    rcases List.mem_append.mp hd with hd | hd
    · exact le_of_lt (e3' d hd)
    · rcases List.mem_cons.mp hd with hd | hd
      · rw [hd]
      · exact e4' d hd
  · intro hsorted d hd heq
    rw [e1] at hd hsorted
    rcases List.mem_append.mp hd with hd | hd
    · have := e3' d hd
      omega
    · rcases List.mem_cons.mp hd with hd | hd
      · rw [hd]
      · have := (List.pairwise_cons.mp (List.pairwise_append.mp hsorted).2.1).1 d hd
        omega

/-- Witness of C11 (amended): CPUs 0 and 1 with total weights 10 and 2. -/
theorem select_returns_first_least_loaded_witness :
    (∀ c ∈ ([0, 1] : List Nat), -2147483648 ≤ lb2.total_weight c ∧ lb2.total_weight c ≤ INT_MAX) ∧
    (∃ c ∈ ([0, 1] : List Nat), lb2.total_weight c < INT_MAX) ∧
    ∃ (pre : List Nat) (c : Nat) (post : List Nat), [0, 1] = pre ++ c :: post ∧
      select_task_rq_wrr lb2 [0, 1] 5 = (c : Int) ∧
      (∀ d ∈ ([0, 1] : List Nat), lb2.total_weight c ≤ lb2.total_weight d) ∧
      (∀ d ∈ pre, lb2.total_weight c < lb2.total_weight d) ∧
      (([0, 1] : List Nat).Pairwise (fun a b => a < b) →
        ∀ d ∈ ([0, 1] : List Nat), lb2.total_weight d = lb2.total_weight c → c ≤ d) :=
  ⟨by decide, by decide,
    select_returns_first_least_loaded lb2 [0, 1] 5 (by decide) (by decide)⟩

/-- C12 (as stated, refuted): CPU 0 is the only online CPU and the task is assigned to it;
`most_idle_cpu` finds the candidate 0, and `select_task_rq_wrr` returns the CPU of the
task all the same, because the candidate is that CPU. -/
theorem select_returns_task_cpu_with_candidate :
    most_idle_cpu lb2 [0] = 0 ∧ most_idle_cpu lb2 [0] ≠ -1 ∧
    select_task_rq_wrr lb2 [0] 5 = (lb2.task_cpu 5 : Int) ∧
    ¬ (select_task_rq_wrr lb2 [0] 5 = (lb2.task_cpu 5 : Int) ↔ most_idle_cpu lb2 [0] = -1) := by
  refine ⟨by decide, by decide, by decide, by decide⟩

/-- C12 (amended): `select_task_rq_wrr` returns the CPU of the task whenever
`most_idle_cpu` found no candidate, and the candidate otherwise; so it returns the CPU of
the task exactly when no candidate was found or the candidate is that very CPU.  With no
online CPU no candidate is found, and the result is the CPU of the task, not -1. -/
theorem select_falls_back_to_task_cpu (s : State) (online : List Nat) (p : Nat) :
    (most_idle_cpu s online = -1 → select_task_rq_wrr s online p = (s.task_cpu p : Int)) ∧
    (most_idle_cpu s online ≠ -1 → select_task_rq_wrr s online p = most_idle_cpu s online) ∧
    (select_task_rq_wrr s online p = (s.task_cpu p : Int) ↔
      most_idle_cpu s online = -1 ∨ most_idle_cpu s online = (s.task_cpu p : Int)) ∧
    most_idle_cpu s [] = -1 ∧
    select_task_rq_wrr s [] p = (s.task_cpu p : Int) ∧
    select_task_rq_wrr s online p ≠ -1 := by
  have h1 : most_idle_cpu s online = -1 →
      select_task_rq_wrr s online p = (s.task_cpu p : Int) := by
    intro h
    unfold select_task_rq_wrr
    simp only [h, if_true]
  have h2 : most_idle_cpu s online ≠ -1 →
      select_task_rq_wrr s online p = most_idle_cpu s online := by
    intro h
    unfold select_task_rq_wrr
    simp only [if_neg h]
  refine ⟨h1, h2, ?_, rfl, rfl, ?_⟩
  · by_cases h : most_idle_cpu s online = -1
    · simp [h1 h, h]
    · rw [h2 h]
      simp [h]
  · by_cases h : most_idle_cpu s online = -1
    · rw [h1 h]
      omega
    · rw [h2 h]
      exact h

/-- Witness of C12 (amended): no online CPU, and a task assigned to CPU 7. -/
theorem select_falls_back_to_task_cpu_witness :
    most_idle_cpu saturated [] = -1 ∧
    select_task_rq_wrr saturated [] 9 = (saturated.task_cpu 9 : Int) :=
  ⟨(select_falls_back_to_task_cpu saturated [] 9).2.2.2.1,
    (select_falls_back_to_task_cpu saturated [] 9).1
      (select_falls_back_to_task_cpu saturated [] 9).2.2.2.1⟩

/-! ## The claims on entity initialisation -/

/-- Function `valid_weight` returns 1 exactly on the closed range of weights, and 0 otherwise. -/
theorem valid_weight_iff (cfg : Config) (w : Nat) :
    (valid_weight cfg w = 1 ↔ cfg.SCHED_WRR_MIN_WEIGHT ≤ w ∧ w ≤ cfg.SCHED_WRR_MAX_WEIGHT) ∧
    (valid_weight cfg w = 0 ↔ ¬ (cfg.SCHED_WRR_MIN_WEIGHT ≤ w ∧ w ≤ cfg.SCHED_WRR_MAX_WEIGHT)) := by
  unfold valid_weight
  constructor <;> split_ifs with h <;> simp [h]

/-- C13: for every entity, `init_task_wrr` leaves a weight within
`[SCHED_WRR_MIN_WEIGHT, SCHED_WRR_MAX_WEIGHT]` unchanged and replaces every weight outside
that range by `SCHED_WRR_DEFAULT_WEIGHT`; in both cases it sets
`time_slice = weight * SCHED_WRR_TIME_QUANTUM` and `time_left = time_slice /
SCHED_WRR_TICK_FACTOR` (integer division) for the resulting weight; and the resulting
weight is within the valid range, the default weight being itself a valid weight. -/
theorem init_task_normalises_weight (cfg : Config) (s : State) (p : Nat) :
    ((cfg.SCHED_WRR_MIN_WEIGHT ≤ s.weight (Node.task p) ∧
        s.weight (Node.task p) ≤ cfg.SCHED_WRR_MAX_WEIGHT) →
      (init_task_wrr cfg s p).weight (Node.task p) = s.weight (Node.task p)) ∧
    (¬ (cfg.SCHED_WRR_MIN_WEIGHT ≤ s.weight (Node.task p) ∧
        s.weight (Node.task p) ≤ cfg.SCHED_WRR_MAX_WEIGHT) →
      (init_task_wrr cfg s p).weight (Node.task p) = cfg.SCHED_WRR_DEFAULT_WEIGHT) ∧
    (init_task_wrr cfg s p).time_slice (Node.task p) =
      (init_task_wrr cfg s p).weight (Node.task p) * cfg.SCHED_WRR_TIME_QUANTUM ∧
    (init_task_wrr cfg s p).time_left (Node.task p) =
      (((init_task_wrr cfg s p).time_slice (Node.task p) / cfg.SCHED_WRR_TICK_FACTOR : Nat) : Int) ∧
    (valid_weight cfg cfg.SCHED_WRR_DEFAULT_WEIGHT = 1 →
      valid_weight cfg ((init_task_wrr cfg s p).weight (Node.task p)) = 1 ∧
      cfg.SCHED_WRR_MIN_WEIGHT ≤ (init_task_wrr cfg s p).weight (Node.task p) ∧
      (init_task_wrr cfg s p).weight (Node.task p) ≤ cfg.SCHED_WRR_MAX_WEIGHT) := by
  have hw := init_task_weight cfg s p
  have hsl := init_task_slice cfg s p
  have hv := valid_weight_iff cfg (s.weight (Node.task p))
  refine ⟨?_, ?_, hsl.1, hsl.2, ?_⟩
  · intro h
    rw [hw, if_pos (hv.1.mpr h)]
  · intro h
    have h0 := hv.2.mpr h
    rw [hw, if_neg (by rw [h0]; decide)]
  · intro hd
    have key : valid_weight cfg ((init_task_wrr cfg s p).weight (Node.task p)) = 1 := by
      rw [hw]
      split_ifs with h
      · exact h
      · exact hd
    exact ⟨key, ((valid_weight_iff cfg _).1.mp key).1, ((valid_weight_iff cfg _).1.mp key).2⟩

/-- Witness of C13: with weights 1 to 20 and default 10, the weight 2 of task 2 is kept
and the weight 0 of task 1 is replaced by 10. -/
theorem init_task_normalises_weight_witness :
    (init_task_wrr cfg0 (set_weight boot 2 2) 2).weight (Node.task 2) =
      (set_weight boot 2 2).weight (Node.task 2) ∧
    (init_task_wrr cfg0 boot 1).weight (Node.task 1) = cfg0.SCHED_WRR_DEFAULT_WEIGHT ∧
    valid_weight cfg0 ((init_task_wrr cfg0 boot 1).weight (Node.task 1)) = 1 :=
  ⟨(init_task_normalises_weight cfg0 (set_weight boot 2 2) 2).1 (by decide),
    (init_task_normalises_weight cfg0 boot 1).2.1 (by decide),
    ((init_task_normalises_weight cfg0 boot 1).2.2.2.2 (by decide)).1⟩

/-- C17: `init_task_wrr` is idempotent: applied twice to the entity of `p` it gives the
same memory as applied once, in particular the same weight, `time_slice`, `time_left`
and the same cleared queue linkage (both pointers of the entity pointing to itself). -/
theorem init_task_idempotent (cfg : Config) (s : State) (p : Nat) :
    init_task_wrr cfg (init_task_wrr cfg s p) p = init_task_wrr cfg s p ∧
    (init_task_wrr cfg s p).next (Node.task p) = some (Node.task p) ∧
    (init_task_wrr cfg s p).prev (Node.task p) = some (Node.task p) := by
  refine ⟨?_, ?_, ?_⟩
  · have hw := init_task_weight cfg s p
    by_cases hd : s.weight (Node.task p) = cfg.SCHED_WRR_DEFAULT_WEIGHT ∨
        valid_weight cfg (s.weight (Node.task p)) = 0
    · have e : init_task_wrr cfg s p = INIT_LIST_HEAD
          { s with
              ent_task := Function.update s.ent_task (Node.task p) (some p),
              weight := Function.update s.weight (Node.task p) cfg.SCHED_WRR_DEFAULT_WEIGHT,
              time_slice := Function.update s.time_slice (Node.task p)
                (cfg.SCHED_WRR_DEFAULT_WEIGHT * cfg.SCHED_WRR_TIME_QUANTUM),
              time_left := Function.update s.time_left (Node.task p)
                ((cfg.SCHED_WRR_DEFAULT_WEIGHT * cfg.SCHED_WRR_TIME_QUANTUM /
                  cfg.SCHED_WRR_TICK_FACTOR : Nat) : Int) } (Node.task p) := by
        unfold init_task_wrr
        simp only [if_pos hd]
      rw [e]
      unfold init_task_wrr
      simp only [INIT_LIST_HEAD, Function.update_same, true_or, if_true, Function.update_idem]
    · have e : init_task_wrr cfg s p = INIT_LIST_HEAD
          { s with
              ent_task := Function.update s.ent_task (Node.task p) (some p),
              time_slice := Function.update s.time_slice (Node.task p)
                (s.weight (Node.task p) * cfg.SCHED_WRR_TIME_QUANTUM),
              time_left := Function.update s.time_left (Node.task p)
                ((s.weight (Node.task p) * cfg.SCHED_WRR_TIME_QUANTUM /
                  cfg.SCHED_WRR_TICK_FACTOR : Nat) : Int) } (Node.task p) := by
        unfold init_task_wrr
        simp only [if_neg hd]
      rw [e]
      unfold init_task_wrr
      simp only [INIT_LIST_HEAD, if_neg hd, Function.update_idem]
  · rw [init_task_frame]
    simp
  · rw [init_task_frame]
    simp

/-- C20: `enqueue_task_wrr` re-initialises the entity unconditionally: on a run queue
whose head is not poisoned the call returns, and whatever `time_left` (and `time_slice`)
the entity of `p` held before, afterwards its weight is the old weight when valid and the
default weight otherwise, `time_slice = weight * SCHED_WRR_TIME_QUANTUM` and `time_left`
is the full `time_slice / SCHED_WRR_TICK_FACTOR`. -/
theorem enqueue_resets_time_left (cfg : Config) (s : State) (rq p : Nat)
    (hh : (s.prev (Node.head rq)).isSome = true) :
    ∃ s', enqueue_task_wrr cfg s rq p = some s' ∧
      s'.weight (Node.task p) =
        (if valid_weight cfg (s.weight (Node.task p)) = 1 then s.weight (Node.task p)
         else cfg.SCHED_WRR_DEFAULT_WEIGHT) ∧
      s'.time_slice (Node.task p) = s'.weight (Node.task p) * cfg.SCHED_WRR_TIME_QUANTUM ∧
      s'.time_left (Node.task p) =
        ((s'.time_slice (Node.task p) / cfg.SCHED_WRR_TICK_FACTOR : Nat) : Int) := by
  obtain ⟨x, hx⟩ := Option.isSome_iff_exists.mp hh
  have hfr := init_task_frame cfg s p
  have hempty : list_empty (init_task_wrr cfg s p) (Node.task p) = true := by
    rw [hfr]
    simp [list_empty]
  have hprev : (init_task_wrr cfg s p).prev (Node.head rq) = some x := by
    rw [hfr]
    show Function.update s.prev (Node.task p) (some (Node.task p)) (Node.head rq) = some x
    rw [Function.update_noteq (by simp), hx]
  have hsl := init_task_slice cfg s p
  have key : enqueue_task_wrr cfg s rq p = some
      { __list_add (init_task_wrr cfg s p) (Node.task p) x (Node.head rq) with
        wrr_nr_running := Function.update (init_task_wrr cfg s p).wrr_nr_running rq
          ((init_task_wrr cfg s p).wrr_nr_running rq + 1),
        size := Function.update (init_task_wrr cfg s p).size rq
          ((init_task_wrr cfg s p).size rq + 1),
        total_weight := Function.update (init_task_wrr cfg s p).total_weight rq
          ((init_task_wrr cfg s p).total_weight rq +
            ((init_task_wrr cfg s p).weight (Node.task p) : Int)) } := by
    unfold enqueue_task_wrr list_add_tail
    simp only [hempty, hprev, Option.map_some']
    rfl
  exact ⟨_, key, init_task_weight cfg s p, hsl.1, hsl.2⟩

/-- Witness of C20: task 1 was ticked three times (7 ticks of 10 left) and dequeued; the
new enqueue gives it the full slice again. -/
theorem enqueue_resets_time_left_witness :
    (q1_dequeued.prev (Node.head 0)).isSome = true ∧
    q1_dequeued.time_left (Node.task 1) = 7 ∧
    ∃ s', enqueue_task_wrr cfg0 q1_dequeued 0 1 = some s' ∧
      s'.weight (Node.task 1) =
        (if valid_weight cfg0 (q1_dequeued.weight (Node.task 1)) = 1
          then q1_dequeued.weight (Node.task 1)
         else cfg0.SCHED_WRR_DEFAULT_WEIGHT) ∧
      s'.time_slice (Node.task 1) = s'.weight (Node.task 1) * cfg0.SCHED_WRR_TIME_QUANTUM ∧
      s'.time_left (Node.task 1) =
        ((s'.time_slice (Node.task 1) / cfg0.SCHED_WRR_TICK_FACTOR : Nat) : Int) :=
  ⟨by decide, by decide, enqueue_resets_time_left cfg0 q1_dequeued 0 1 (by decide)⟩

/-- C14 (as stated, refuted): the run queues of CPUs 0 and 1 carry the total weights 10
and 2; after `load_balance_wrr` they still carry 10 and 2, so the difference between the
two has not been reduced. -/
theorem load_balance_moves_nothing :
    lb2.total_weight 0 = 10 ∧ lb2.total_weight 1 = 2 ∧
    (load_balance_wrr lb2).total_weight 0 = 10 ∧ (load_balance_wrr lb2).total_weight 1 = 2 ∧
    ¬ ((load_balance_wrr lb2).total_weight 0 - (load_balance_wrr lb2).total_weight 1 <
        lb2.total_weight 0 - lb2.total_weight 1) := by
  refine ⟨by decide, by decide, by decide, by decide, by decide⟩

/-- C14 (amended): `load_balance_wrr` has an empty body: a pass leaves memory, hence
every run queue, as it is; for any two run queues the two total weights, their sum and
their difference after the pass are the ones before it. -/
theorem load_balance_is_identity (s : State) (a b : Nat) :
    load_balance_wrr s = s ∧
    (load_balance_wrr s).total_weight a = s.total_weight a ∧
    (load_balance_wrr s).total_weight b = s.total_weight b ∧
    (load_balance_wrr s).total_weight a + (load_balance_wrr s).total_weight b =
      s.total_weight a + s.total_weight b ∧
    (load_balance_wrr s).total_weight a - (load_balance_wrr s).total_weight b =
      s.total_weight a - s.total_weight b :=
  ⟨rfl, rfl, rfl, rfl, rfl⟩

/-! ## The claim on execution-time accounting -/

/-- C16: for every `task_tick_wrr` call on a member of a run queue whose `size` is the
number of its entries, the call returns; if the decremented `time_left` is not zero, in
particular if it is still positive, the call marks no task for rescheduling and changes no
list link, so neither the entries nor their order; if the slice expires (the decremented `time_left` is zero) the call marks
the task for rescheduling whether or not it is the sole entity, moves it to the tail when
the queue holds more than one entity, and changes no list link when it is the sole one. -/
theorem tick_marks_and_moves (cfg : Config) (s : State) (rq p : Nat) (E : List Nat)
    (hE : entries_are s rq E) (hsz : s.size rq = (E.length : Int)) (hp : p ∈ E) :
    ∃ s', task_tick_wrr cfg s rq p = some s' ∧
      (s.time_left (Node.task p) - 1 ≠ 0 →
        s'.need_resched = s.need_resched ∧ s'.next = s.next ∧ s'.prev = s.prev ∧
        entries_are s' rq E) ∧
      (s.time_left (Node.task p) - 1 = 0 →
        s'.need_resched p = true ∧
        (1 < E.length → entries_are s' rq ((E.filter fun q => q ≠ p) ++ [p])) ∧
        (E.length = 1 → s'.next = s.next ∧ s'.prev = s.prev ∧ entries_are s' rq E)) := by
  obtain ⟨s1, hs1⟩ : ∃ s1, update_curr_wrr s rq = s1 := ⟨_, rfl⟩
  have hfr := update_curr_frame s rq
  rw [hs1] at hfr
  have htl : s1.time_left = s.time_left := by rw [hfr]
  have hpv : s1.prev = s.prev := by rw [hfr]
  have hnx : s1.next = s.next := by rw [hfr]
  have hnr : s1.need_resched = s.need_resched := by rw [hfr]
  have hsize : s1.size = s.size := by rw [hfr]
  have hE1 : entries_are s1 rq E := entries_congr hnx hpv hE
  obtain ⟨p1, p2, p3⟩ := @tick_paths cfg s s1 rq p hs1
  have hiff := member_ptr_ne hE1 hp
  have htle : s1.time_left (Node.task p) = s.time_left (Node.task p) := congrFun htl _
  by_cases h : s.time_left (Node.task p) = 1
  · have h' : s1.time_left (Node.task p) = 1 := by rw [htle]; exact h
    by_cases hl : s1.prev (Node.task p) = s1.next (Node.task p)
    · have hlen := (alone_iff hE1 hp).mp hl
      refine ⟨_, p2 h' (fun hd => hiff.mp hd hl), fun h0 => by omega,
        fun _ => ⟨?_, fun h1 => by omega, fun _ => ?_⟩⟩
      · simp [set_tsk_need_resched]
      · exact ⟨hnx, hpv, entries_congr (s := s) hnx hpv hE⟩
    · have hlen : 1 < E.length := by
        have h1 : E.length ≠ 1 := fun e => hl ((alone_iff hE1 hp).mpr e)
        have h2 : 1 ≤ E.length := List.length_pos_of_mem hp
        omega
      obtain ⟨s4, h1, h2, _, _⟩ := requeue_spec
        (s := { s1 with
              time_left := Function.update s1.time_left (Node.task p)
                ((s1.time_slice (Node.task p) / cfg.SCHED_WRR_TICK_FACTOR : Nat) : Int) })
        (entries_congr (s := s1) rfl rfl hE1) (by rw [← hsz]; exact congrFun hsize rq) hp
      refine ⟨set_tsk_need_resched s4 p, by rw [p3 h' (hiff.mpr hl), h1]; rfl,
        fun h0 => by omega,
        fun _ => ⟨?_, fun _ => ?_, fun h1 => by omega⟩⟩
      · simp [set_tsk_need_resched]
      · rw [← erase_eq_filter_ne hE.1]
        exact entries_congr (s := s4) rfl rfl h2
  · have h' : s1.time_left (Node.task p) ≠ 1 := by rw [htle]; exact h
    refine ⟨_, p1 h', fun _ => ⟨hnr, hnx, hpv, entries_congr (s := s) hnx hpv hE⟩,
      fun h0 => by omega⟩

/-- Witness of C16: a tick of task 1 in the queue holding tasks 1, 2 and 3. -/
theorem tick_marks_and_moves_witness :
    entries_are q123 0 [1, 2, 3] ∧ q123.size 0 = (([1, 2, 3] : List Nat).length : Int) ∧
    1 ∈ [1, 2, 3] ∧
    ∃ s', task_tick_wrr cfg0 q123 0 1 = some s' ∧
      (q123.time_left (Node.task 1) - 1 ≠ 0 →
        s'.need_resched = q123.need_resched ∧ s'.next = q123.next ∧ s'.prev = q123.prev ∧
        entries_are s' 0 [1, 2, 3]) ∧
      (q123.time_left (Node.task 1) - 1 = 0 →
        s'.need_resched 1 = true ∧
        (1 < ([1, 2, 3] : List Nat).length →
          entries_are s' 0 (([1, 2, 3].filter fun q => q ≠ 1) ++ [1])) ∧
        (([1, 2, 3] : List Nat).length = 1 →
          s'.next = q123.next ∧ s'.prev = q123.prev ∧ entries_are s' 0 [1, 2, 3])) :=
  ⟨by decide, by decide, by decide,
    tick_marks_and_moves cfg0 q123 0 1 [1, 2, 3] (by decide) (by decide) (by decide)⟩

/-- C18: on a run queue whose `size` is the number of its entries, for every member
`p` whose slice expires at this tick, and with `s3` the state on which `task_tick_wrr`
evaluates its pointer test (time accounted, `time_left` set again): the test
`run_list.prev != run_list.next` holds exactly when `size` is at least 2, which is
exactly when the guard `size == 1` of `requeue_task_wrr` lets the move happen; the
result of `task_tick_wrr` is the one of `requeue_task_wrr` on `s3` followed by
`set_tsk_need_resched`; where the test holds the tick moves the entity to the tail by
`list_move_tail`, and where it fails the tick changes no link and `requeue_task_wrr`
would have returned `s3` as it is. -/
theorem tick_requeue_agrees_with_size (cfg : Config) (s s3 : State) (rq p : Nat)
    (E : List Nat)
    (hE : entries_are s rq E) (hsz : s.size rq = (E.length : Int)) (hp : p ∈ E)
    (hexp : s.time_left (Node.task p) = 1)
    (hs3 : s3 =
      { update_curr_wrr s rq with
          time_left := Function.update (update_curr_wrr s rq).time_left (Node.task p)
            (((update_curr_wrr s rq).time_slice (Node.task p) /
              cfg.SCHED_WRR_TICK_FACTOR : Nat) : Int) }) :
    (ptr_ne (s3.prev (Node.task p)) (s3.next (Node.task p)) ↔ 2 ≤ s3.size rq) ∧
    (ptr_ne (s3.prev (Node.task p)) (s3.next (Node.task p)) ↔ s3.size rq ≠ 1) ∧
    task_tick_wrr cfg s rq p =
      (requeue_task_wrr s3 rq p).map (fun s4 => set_tsk_need_resched s4 p) ∧
    (ptr_ne (s3.prev (Node.task p)) (s3.next (Node.task p)) →
      ∃ s4, list_move_tail s3 (Node.task p) (Node.head rq) = some s4 ∧
        requeue_task_wrr s3 rq p = some s4 ∧
        task_tick_wrr cfg s rq p = some (set_tsk_need_resched s4 p) ∧
        entries_are s4 rq (E.erase p ++ [p])) ∧
    (¬ ptr_ne (s3.prev (Node.task p)) (s3.next (Node.task p)) →
      requeue_task_wrr s3 rq p = some s3 ∧
      task_tick_wrr cfg s rq p = some (set_tsk_need_resched s3 p) ∧
      s3.next = s.next ∧ s3.prev = s.prev) := by
  have hfr := update_curr_frame s rq
  have htl : (update_curr_wrr s rq).time_left = s.time_left := by rw [hfr]
  have hpv : s3.prev = s.prev := by rw [hs3, hfr]
  have hnx : s3.next = s.next := by rw [hs3, hfr]
  have hsize : s3.size = s.size := by rw [hs3, hfr]
  have hE3 : entries_are s3 rq E := entries_congr hnx hpv hE
  have hsz3 : s3.size rq = (E.length : Int) := by rw [hsize]; exact hsz
  have hpos : 1 ≤ E.length := List.length_pos_of_mem hp
  have hiff := member_ptr_ne hE3 hp
  have h1 := alone_iff hE3 hp
  have e2 : ptr_ne (s3.prev (Node.task p)) (s3.next (Node.task p)) ↔ 2 ≤ s3.size rq := by
    rw [hiff, Ne, h1, hsz3]
    omega
  have e1 : ptr_ne (s3.prev (Node.task p)) (s3.next (Node.task p)) ↔ s3.size rq ≠ 1 := by
    rw [e2, hsz3]
    omega
  have h' : (update_curr_wrr s rq).time_left (Node.task p) = 1 := by rw [htl]; exact hexp
  obtain ⟨_, p2, p3⟩ := @tick_paths cfg s (update_curr_wrr s rq) rq p rfl
  have t2 : ¬ ptr_ne (s3.prev (Node.task p)) (s3.next (Node.task p)) →
      task_tick_wrr cfg s rq p = some (set_tsk_need_resched s3 p) := by
    intro hl
    rw [hs3] at hl ⊢
    exact p2 h' hl
  have t3 : ptr_ne (s3.prev (Node.task p)) (s3.next (Node.task p)) →
      task_tick_wrr cfg s rq p =
        (requeue_task_wrr s3 rq p).map (fun s4 => set_tsk_need_resched s4 p) := by
    intro hl
    rw [hs3] at hl ⊢
    exact p3 h' hl
  have r1 : s3.size rq = 1 → requeue_task_wrr s3 rq p = some s3 := by
    intro h
    unfold requeue_task_wrr
    simp only [if_pos h]
  have r2 : s3.size rq ≠ 1 →
      requeue_task_wrr s3 rq p = list_move_tail s3 (Node.task p) (Node.head rq) := by
    intro h
    unfold requeue_task_wrr
    simp only [if_neg h]
  refine ⟨e2, e1, ?_, ?_, ?_⟩
  · by_cases hl : ptr_ne (s3.prev (Node.task p)) (s3.next (Node.task p))
    · exact t3 hl
    · have hone : s3.size rq = 1 := by
        by_contra hne
        exact hl (e1.mpr hne)
      rw [t2 hl, r1 hone]
      rfl
  · intro hl
    obtain ⟨s4, m1, m2, _⟩ := move_tail_spec hE3 hp
    have hr := r2 (e1.mp hl)
    refine ⟨s4, m1, by rw [hr]; exact m1, ?_, m2⟩
    rw [t3 hl, hr, m1]
    rfl
  · intro hl
    have hone : s3.size rq = 1 := by
      by_contra hne
      exact hl (e1.mpr hne)
    exact ⟨r1 hone, t2 hl, hnx, hpv⟩

/-- Witness of C18: the tenth tick of task 1, first in the queue holding tasks 1, 2
and 3, finds the pointers different and moves task 1 to the tail; the tenth tick of
task 1 alone in its queue finds them equal and moves nothing. -/
theorem tick_requeue_agrees_with_size_witness :
    (entries_are q123_last 0 [1, 2, 3] ∧
      q123_last.size 0 = (([1, 2, 3] : List Nat).length : Int) ∧ 1 ∈ [1, 2, 3] ∧
      q123_last.time_left (Node.task 1) = 1) ∧
    ((ptr_ne (q123_reset.prev (Node.task 1)) (q123_reset.next (Node.task 1)) ↔
        2 ≤ q123_reset.size 0) ∧
      (ptr_ne (q123_reset.prev (Node.task 1)) (q123_reset.next (Node.task 1)) ↔
        q123_reset.size 0 ≠ 1) ∧
      task_tick_wrr cfg0 q123_last 0 1 =
        (requeue_task_wrr q123_reset 0 1).map (fun s4 => set_tsk_need_resched s4 1) ∧
      (ptr_ne (q123_reset.prev (Node.task 1)) (q123_reset.next (Node.task 1)) →
        ∃ s4, list_move_tail q123_reset (Node.task 1) (Node.head 0) = some s4 ∧
          requeue_task_wrr q123_reset 0 1 = some s4 ∧
          task_tick_wrr cfg0 q123_last 0 1 = some (set_tsk_need_resched s4 1) ∧
          entries_are s4 0 (([1, 2, 3] : List Nat).erase 1 ++ [1])) ∧
      (¬ ptr_ne (q123_reset.prev (Node.task 1)) (q123_reset.next (Node.task 1)) →
        requeue_task_wrr q123_reset 0 1 = some q123_reset ∧
        task_tick_wrr cfg0 q123_last 0 1 = some (set_tsk_need_resched q123_reset 1) ∧
        q123_reset.next = q123_last.next ∧ q123_reset.prev = q123_last.prev)) ∧
    (ptr_ne (q123_reset.prev (Node.task 1)) (q123_reset.next (Node.task 1)) ∧
      q123_reset.size 0 = 3 ∧
      (task_tick_wrr cfg0 q123_last 0 1).isSome = true ∧
      entries_are q123_after 0 [2, 3, 1] ∧
      q123_after.need_resched 1 = true ∧
      q123_after.time_left (Node.task 1) = 10) ∧
    (entries_are q1_last 0 [1] ∧ q1_last.time_left (Node.task 1) = 1 ∧
      ¬ ptr_ne (q1_reset.prev (Node.task 1)) (q1_reset.next (Node.task 1)) ∧
      q1_reset.size 0 = 1 ∧
      (task_tick_wrr cfg0 q1_last 0 1).isSome = true ∧
      entries_are q1_after 0 [1] ∧
      q1_after.need_resched 1 = true ∧
      q1_after.time_left (Node.task 1) = 10) :=
  ⟨⟨by decide, by decide, by decide, by decide⟩,
    tick_requeue_agrees_with_size cfg0 q123_last q123_reset 0 1 [1, 2, 3]
      (by decide) (by decide) (by decide) (by decide) rfl,
    ⟨by decide, by decide, by decide, by decide, by decide, by decide⟩,
    ⟨by decide, by decide, by decide, by decide, by decide, by decide, by decide,
      by decide⟩⟩

/-- C19: on a run queue with entries `E` and for a task `p` of this CPU that is not in
the queue, `enqueue_task_wrr` followed immediately by `dequeue_task_wrr` of `p` returns
and restores the entries (the same tasks in the same order), `size` and `total_weight` of
the run queue to their values before the enqueue. -/
theorem enqueue_then_dequeue_restores (cfg : Config) (s : State) (rq p : Nat) (E : List Nat)
    (hE : entries_are s rq E) (hp : p ∉ E) (hc : s.task_cpu p = rq) :
    ∃ s1 s2, enqueue_task_wrr cfg s rq p = some s1 ∧ dequeue_task_wrr s1 rq p = some s2 ∧
      entries_are s2 rq E ∧ s2.size rq = s.size rq ∧
      s2.total_weight rq = s.total_weight rq := by
  obtain ⟨s1, e1, e2, e3⟩ := enqueue_spec cfg hE hp
  obtain ⟨f1, _, _, f4, _, _, f7, f8, _⟩ := enqueue_fields cfg hE hp e1
  have hfr := init_task_frame cfg s p
  have hcpu : s1.task_cpu = s.task_cpu := by rw [e3, hfr]
  have ht : s1.ent_task (Node.task p) = some p := by
    rw [f4, Function.update_same]
  obtain ⟨s2, d1, d2, d3⟩ := dequeue_spec e2 (by simp) ht (by rw [hcpu]; exact hc)
  have her : (E ++ [p]).erase p = E := by
    rw [List.erase_append_right _ hp]
    simp
  rw [her] at d2
  have g1 : s2.size = Function.update s1.size rq (s1.size rq - 1) := by rw [d3]
  have g2 : s2.total_weight = Function.update s1.total_weight rq
      (s1.total_weight rq - (s1.weight (Node.task p) : Int)) := by rw [d3]
  refine ⟨s1, s2, e1, d1, d2, ?_, ?_⟩
  · rw [g1, Function.update_same, f7]
    omega
  · rw [g2, Function.update_same, f8, f1]
    omega

/-- Witness of C19: task 3 enqueued on and dequeued from the queue holding tasks 1 and 2. -/
theorem enqueue_then_dequeue_restores_witness :
    entries_are q12 0 [1, 2] ∧ 3 ∉ [1, 2] ∧ q12.task_cpu 3 = 0 ∧
    ∃ s1 s2, enqueue_task_wrr cfg0 q12 0 3 = some s1 ∧ dequeue_task_wrr s1 0 3 = some s2 ∧
      entries_are s2 0 [1, 2] ∧ s2.size 0 = q12.size 0 ∧
      s2.total_weight 0 = q12.total_weight 0 :=
  ⟨by decide, by decide, rfl,
    enqueue_then_dequeue_restores cfg0 q12 0 3 [1, 2] (by decide) (by decide) rfl⟩

end WRR
